import Mathlib

/-!
Verification development for a two-stage data pipeline:
a Fetcher that pulls paginated rows from a remote HTTP API with bounded
retry, and a Denormalizer that joins three row snapshots (companies,
tools, libraries) into enriched web-ready artifacts.

The Python sources are embedded shallowly:
* JSON values become the inductive `JVal`; a row (a JSON object / Python
  dict) becomes an association list with unique-key dictionary semantics;
* fallible Python code (KeyError on subscript, TypeError on iterating or
  joining ill-typed values, AttributeError on lowercasing a non-string)
  becomes `Except String`;
* the HTTP layer is abstracted into per-request response oracles: a page
  request sees a stream of per-attempt responses, and a table is a finite
  chain of pages (the chain structure models the `next` pointers, the end
  of the chain models `next = null`).
-/

/-- A JSON value as handled by the pipeline: strings, integers, null,
arrays and objects. (Floats and booleans never occur in the fields the
pipeline reads and are not modelled.) -/
inductive JVal where
  | s : String → JVal
  | n : Int → JVal
  | null : JVal
  | arr : List JVal → JVal
  | obj : List (String × JVal) → JVal

mutual

/-- Structural decidable equality for `JVal` (the automatic deriving
handler does not support this nested inductive). -/
def JVal.decEq : (a b : JVal) → Decidable (a = b)
  | JVal.s a, JVal.s b =>
    if h : a = b then isTrue (by rw [h]) else isFalse (by simp [h])
  | JVal.n a, JVal.n b =>
    if h : a = b then isTrue (by rw [h]) else isFalse (by simp [h])
  | JVal.null, JVal.null => isTrue rfl
  | JVal.arr a, JVal.arr b =>
    match JVal.decEqList a b with
    | isTrue h => isTrue (by rw [h])
    | isFalse h => isFalse (by simp [h])
  | JVal.obj a, JVal.obj b =>
    match JVal.decEqPairs a b with
    | isTrue h => isTrue (by rw [h])
    | isFalse h => isFalse (by simp [h])
  | JVal.s _, JVal.n _ => isFalse (fun h => nomatch h)
  | JVal.s _, JVal.null => isFalse (fun h => nomatch h)
  | JVal.s _, JVal.arr _ => isFalse (fun h => nomatch h)
  | JVal.s _, JVal.obj _ => isFalse (fun h => nomatch h)
  | JVal.n _, JVal.s _ => isFalse (fun h => nomatch h)
  | JVal.n _, JVal.null => isFalse (fun h => nomatch h)
  | JVal.n _, JVal.arr _ => isFalse (fun h => nomatch h)
  | JVal.n _, JVal.obj _ => isFalse (fun h => nomatch h)
  | JVal.null, JVal.s _ => isFalse (fun h => nomatch h)
  | JVal.null, JVal.n _ => isFalse (fun h => nomatch h)
  | JVal.null, JVal.arr _ => isFalse (fun h => nomatch h)
  | JVal.null, JVal.obj _ => isFalse (fun h => nomatch h)
  | JVal.arr _, JVal.s _ => isFalse (fun h => nomatch h)
  | JVal.arr _, JVal.n _ => isFalse (fun h => nomatch h)
  | JVal.arr _, JVal.null => isFalse (fun h => nomatch h)
  | JVal.arr _, JVal.obj _ => isFalse (fun h => nomatch h)
  | JVal.obj _, JVal.s _ => isFalse (fun h => nomatch h)
  | JVal.obj _, JVal.n _ => isFalse (fun h => nomatch h)
  | JVal.obj _, JVal.null => isFalse (fun h => nomatch h)
  | JVal.obj _, JVal.arr _ => isFalse (fun h => nomatch h)

/-- Decidable equality for lists of `JVal`. -/
def JVal.decEqList : (a b : List JVal) → Decidable (a = b)
  | [], [] => isTrue rfl
  | [], _ :: _ => isFalse (fun h => nomatch h)
  | _ :: _, [] => isFalse (fun h => nomatch h)
  | x :: xs, y :: ys =>
    match JVal.decEq x y, JVal.decEqList xs ys with
    | isTrue h1, isTrue h2 => isTrue (by rw [h1, h2])
    | isFalse h1, _ => isFalse (by simp [h1])
    | _, isFalse h2 => isFalse (by simp [h2])

/-- Decidable equality for key-value pair lists of `JVal`. -/
def JVal.decEqPairs : (a b : List (String × JVal)) → Decidable (a = b)
  | [], [] => isTrue rfl
  | [], _ :: _ => isFalse (fun h => nomatch h)
  | _ :: _, [] => isFalse (fun h => nomatch h)
  | (k1, v1) :: xs, (k2, v2) :: ys =>
    match String.decEq k1 k2, JVal.decEq v1 v2, JVal.decEqPairs xs ys with
    | isTrue h0, isTrue h1, isTrue h2 => isTrue (by rw [h0, h1, h2])
    | isFalse h0, _, _ => isFalse (by simp [h0])
    | _, isFalse h1, _ => isFalse (by simp [h1])
    | _, _, isFalse h2 => isFalse (by simp [h2])

end

instance : DecidableEq JVal := JVal.decEq

/-- A row: a JSON object, i.e. a Python dict from field names to values.
Represented as an association list with unique keys (a JSON object parsed
by `json.load` has unique keys). -/
abbrev Row := List (String × JVal)

/-- Python `d.get(k)` / `d[k]` lookup on a dict represented as an
association list: the first binding of the key (keys are unique, so this
is the dictionary semantics). -/
def pyDictGet {α β : Type} [DecidableEq α] (d : List (α × β)) (k : α) : Option β :=
  match d with
  | [] => none
  | p :: rest => if p.1 = k then some p.2 else pyDictGet rest k

/-- Python `d.get(k, default)`. -/
def pyDictGetD {α β : Type} [DecidableEq α] (d : List (α × β)) (k : α) (dflt : β) : β :=
  (pyDictGet d k).getD dflt

/-- Python `d[k]` where a missing key raises `KeyError`. -/
def pySubscript (d : Row) (k : String) : Except String JVal :=
  match pyDictGet d k with
  | some v => Except.ok v
  | none => Except.error ("KeyError: " ++ k)

/-- Python `d[k] = v` on a dict: replace the first binding of `k` in
place, or append a new binding at the end (insertion order semantics). -/
def pyDictInsert {α β : Type} [DecidableEq α] (d : List (α × β)) (k : α) (v : β) : List (α × β) :=
  match d with
  | [] => [(k, v)]
  | p :: rest => if p.1 = k then (k, v) :: rest else p :: pyDictInsert rest k v

/-! ## Fetcher (`fetch_baserow_tables.py`) -/

/-- `MAX_RETRIES` from the source. -/
def MAX_RETRIES : Nat := 3

/-- `RETRY_DELAYS` from the source (seconds of backoff before the next
attempt). -/
def RETRY_DELAYS : List Nat := [1, 2, 4]

/-- One observable outcome of a single `requests.get` call: an HTTP
status code, or a transport-level failure (`requests.exceptions.RequestException`). -/
inductive Resp where
  | status : Nat → Resp
  | transportErr : Resp
deriving DecidableEq

/-- Status codes the source retries on: `[429, 500, 502, 503, 504]`. -/
def isRetryable (c : Nat) : Bool :=
  c = 429 || c = 500 || c = 502 || c = 503 || c = 504

/-- Outcome of the per-page retry loop (`for attempt in range(MAX_RETRIES)`):
either a 200 response was obtained, or the source called `sys.exit(1)`.
Both record how many attempts were made and the total backoff delay slept. -/
inductive PageOutcome where
  | ok : Nat → Nat → PageOutcome
  | exitRun : Nat → Nat → PageOutcome
deriving DecidableEq

/-- The body of `for attempt in range(MAX_RETRIES)` from
`fetch_table_with_pagination`, recursing over the remaining attempt
indices. `resps` is the oracle giving the response seen on each attempt.
`used` and `delayAcc` accumulate attempts made and delay slept so far.
A nonempty tail of attempt indices is exactly the source condition
`attempt < MAX_RETRIES - 1`. The `[]` fall-through case is unreachable
when starting from `List.range MAX_RETRIES` because the last attempt
always breaks or exits. -/
def retryGo (resps : Nat → Resp) : List Nat → Nat → Nat → PageOutcome
  | [], used, delayAcc => PageOutcome.exitRun used delayAcc
  | attempt :: rest, used, delayAcc =>
    match resps attempt with
    | Resp.status c =>
      if c = 200 then
        PageOutcome.ok (used + 1) delayAcc
      else if isRetryable c then
        if rest ≠ [] then
          retryGo resps rest (used + 1) (delayAcc + RETRY_DELAYS.getD attempt 0)
        else
          PageOutcome.exitRun (used + 1) delayAcc
      else
        PageOutcome.exitRun (used + 1) delayAcc
    | Resp.transportErr =>
      if rest ≠ [] then
        retryGo resps rest (used + 1) (delayAcc + RETRY_DELAYS.getD attempt 0)
      else
        PageOutcome.exitRun (used + 1) delayAcc

/-- One full page request with its retry loop. -/
def requestPage (resps : Nat → Resp) : PageOutcome :=
  retryGo resps (List.range MAX_RETRIES) 0 0

/-- The remote behaviour for one page URL: the per-attempt response
oracle, and the `results` list of the page body delivered when a 200 is
obtained (the same URL returns the same body on whichever attempt
succeeds). The page chain is a `List PageConn`: a nonempty tail means the
page body carries a non-null `next` pointer, the end of the list means
`next` is null. -/
structure PageConn where
  resps : Nat → Resp
  results : List Row

/-- Result of `fetch_table_with_pagination`: the accumulated rows (the
function returns them) or process termination via `sys.exit(1)`. Both
record how many page requests were issued. -/
inductive FetchResult where
  | ok : List Row → Nat → FetchResult
  | sysExit : Nat → FetchResult
deriving DecidableEq

/-- The source condition `if limit and len(all_rows) >= limit`:
`limit` must be set and truthy (nonzero) and the accumulated length must
have reached it. -/
def limitHit (limit : Option Int) (len : Nat) : Bool :=
  match limit with
  | none => false
  | some l => l ≠ 0 && l ≤ (len : Int)

/-- Python slice `xs[:l]` for an arbitrary integer `l`. -/
def pySlice {α : Type} (l : Int) (xs : List α) : List α :=
  if 0 ≤ l then xs.take l.toNat else xs.take (xs.length - (-l).toNat)

/-- The `while url:` pagination loop of `fetch_table_with_pagination`.
Each iteration issues one page request through the retry loop; a fatal
retry outcome propagates the source `sys.exit(1)`. An empty `results`
list breaks the loop; reaching the limit truncates (`all_rows[:limit]`)
and breaks; otherwise the loop follows the `next` pointer (the tail of
the chain), and a null `next` (end of chain) ends the loop. -/
def fetchLoop (limit : Option Int) : List PageConn → List Row → Nat → FetchResult
  | [], acc, pages => FetchResult.ok acc pages
  | c :: rest, acc, pages =>
    match requestPage c.resps with
    | PageOutcome.exitRun _ _ => FetchResult.sysExit (pages + 1)
    | PageOutcome.ok _ _ =>
      if c.results = [] then
        FetchResult.ok acc (pages + 1)
      else
        let acc2 := acc ++ c.results
        if limitHit limit acc2.length then
          FetchResult.ok (pySlice (limit.getD 0) acc2) (pages + 1)
        else
          fetchLoop limit rest acc2 (pages + 1)

/-- `fetch_table_with_pagination` over a page chain: start with an empty
accumulator at the initial URL. -/
def fetch_table_with_pagination (conns : List PageConn) (limit : Option Int) : FetchResult :=
  fetchLoop limit conns [] 0

/-! ## Denormalizer (`process_for_web.py`) data model -/

/-- The embedded tool summary a company carries after enrichment
(the dict literal appended to `company_tools` in `create_web_companies`). -/
structure EmbTool where
  id : JVal
  name : JVal
  description_short : JVal
  description_long : JVal
  tags : List JVal
  rating : JVal
  cost : JVal
  url : JVal
deriving DecidableEq

/-- A web-ready company (the dict literal appended to `web_companies`). -/
structure WebCompany where
  id : JVal
  name : JVal
  url : JVal
  notes : JVal
  tools : List EmbTool
  tool_count : Nat
deriving DecidableEq

/-- The embedded company summary a tool carries after enrichment
(the dict literal appended to `tool_companies` in `create_web_tools`). -/
structure EmbCompany where
  id : JVal
  name : JVal
  url : JVal
deriving DecidableEq

/-- A web-ready tool (the dict literal appended to `web_tools`).
`tag_colors` is a Python dict keyed by tag value, kept as an
insertion-ordered unique-key association list. -/
structure WebTool where
  id : JVal
  name : JVal
  description_short : JVal
  description_long : JVal
  tags : List JVal
  tag_colors : List (JVal × JVal)
  companies : List EmbCompany
  rating : JVal
  cost : JVal
  url : JVal
  last_modified : JVal
deriving DecidableEq

/-- Iterating a value with a Python `for` loop. Only lists are iterable
in the data this pipeline handles; iterating any other value is mapped to
an error. (Python would iterate a string character by character, but
every claim-relevant path then subscripts the element and fails anyway.) -/
def pyIterList : JVal → Except String (List JVal)
  | JVal.arr xs => Except.ok xs
  | _ => Except.error "TypeError: not a list"

/-- Python `str.lower()`: lower every character. (Equivalent to Lean's
builtin `String.toLower`, restated by structural recursion over the
character list so that concrete instances evaluate by `rfl`.) -/
def pyToLower (s : String) : String := String.mk (s.data.map Char.toLower)

/-- Python `.lower()` on a value: only a string has the attribute. -/
def pyLower : JVal → Except String String
  | JVal.s s => Except.ok (pyToLower s)
  | _ => Except.error "AttributeError: lower"

/-- Python `sep.join(xs)`: every element must be a string. -/
def pyJoin (sep : String) (xs : List JVal) : Except String String := do
  let strs ← xs.mapM (fun v => match v with
    | JVal.s s => Except.ok s
    | _ => Except.error "TypeError: join expects str")
  pure (String.intercalate sep strs)

mutual

/-- Python `repr()` of a JSON-shaped value (used by `str()` on
containers). The exact text is irrelevant to every claim; it only feeds
the free-text `search_text` field. -/
def pyRepr : JVal → String
  | JVal.s s => "\x27" ++ s ++ "\x27"
  | JVal.n i => toString i
  | JVal.null => "None"
  | JVal.arr xs => "[" ++ String.intercalate ", " (pyReprList xs) ++ "]"
  | JVal.obj d => "\x7b" ++ String.intercalate ", " (pyReprPairs d) ++ "\x7d"

/-- `pyRepr` over the elements of an array. -/
def pyReprList : List JVal → List String
  | [] => []
  | x :: xs => pyRepr x :: pyReprList xs

/-- `pyRepr` over the entries of an object. -/
def pyReprPairs : List (String × JVal) → List String
  | [] => []
  | (k, v) :: xs => ("\x27" ++ k ++ "\x27: " ++ pyRepr v) :: pyReprPairs xs

end

/-- Python `str()` / f-string conversion of a value. -/
def pyStr : JVal → String
  | JVal.s s => s
  | v => pyRepr v

/-! ## Denormalizer operations -/

/-- The dict comprehension of `main`, `tools_by_id = (t['id']: t for t)`:
a dict from internal row id to row. A row without an `id` field raises
`KeyError`; a duplicated id keeps the last row. -/
def rowsByIdStep (d : List (JVal × Row)) (r : Row) :
    Except String (List (JVal × Row)) := do
  let k ← pySubscript r "id"
  pure (pyDictInsert d k r)

/-- The dict comprehension folded over the rows. -/
def rowsById (rows : List Row) : Except String (List (JVal × Row)) :=
  rows.foldlM rowsByIdStep []

/-- The enriched-tool dict literal of `create_web_companies`, built from
a resolved tool row. -/
def enrichToolForCompany (tool : Row) : Except String EmbTool := do
  let uuid ← pySubscript tool "UUID"
  let name ← pySubscript tool "ToolName"
  let tagObjs ← pyIterList (pyDictGetD tool "Tool Tags" (JVal.arr []))
  let tags ← tagObjs.mapM (fun t => match t with
    | JVal.obj d => pySubscript d "value"
    | _ => Except.error "TypeError: tag is not a dict")
  pure (EmbTool.mk uuid name
    (pyDictGetD tool "Tool Description Short" (JVal.s ""))
    (pyDictGetD tool "ToolDescription_long" (JVal.s ""))
    tags
    (pyDictGetD tool "Overall Rating" (JVal.s "0"))
    (pyDictGetD tool "Annual License Cost" JVal.null)
    (pyDictGetD tool "URL" (JVal.s "")))

/-- One iteration of a reference-resolution loop (the two loops of
`create_web_companies` and `create_web_tools` are syntactically
parallel): subscript the reference dict for its `id`, look it up in the
opposite-table index (`.get`, so a dangling id is skipped silently), skip
an empty row (the truthiness test `if tool:` / `if comp:`), and append
the enrichment of a resolved row. -/
def resolveRefsStep {γ : Type} (by_id : List (JVal × Row))
    (enrich : Row → Except String γ) (acc : List γ) (ref : JVal) :
    Except String (List γ) :=
  match ref with
  | JVal.obj d => do
    let rid ← pySubscript d "id"
    match pyDictGet by_id rid with
    | some row =>
      if row = [] then pure acc
      else do
        let e ← enrich row
        pure (acc ++ [e])
    | none => pure acc
  | _ => Except.error "TypeError: ref is not a dict"

/-- The body of the `for company in companies` loop of
`create_web_companies`: resolve the `Tools` reference list against the
tool index, then build the company dict. -/
def processCompany (tools_by_id : List (JVal × Row)) (company : Row) :
    Except String WebCompany := do
  let refs ← pyIterList (pyDictGetD company "Tools" (JVal.arr []))
  let company_tools ← refs.foldlM (resolveRefsStep tools_by_id enrichToolForCompany) []
  let uuid ← pySubscript company "UUID"
  let name ← pySubscript company "Company Name"
  pure (WebCompany.mk uuid name
    (pyDictGetD company "URL" (JVal.s ""))
    (pyDictGetD company "Notes" (JVal.s ""))
    company_tools
    company_tools.length)

/-- `create_web_companies` from the source. -/
def create_web_companies (companies : List Row) (tools_by_id : List (JVal × Row)) :
    Except String (List WebCompany) :=
  companies.mapM (processCompany tools_by_id)

/-- The enriched-company dict literal of `create_web_tools`, built from
a resolved company row. -/
def enrichCompanyForTool (comp : Row) : Except String EmbCompany := do
  let uuid ← pySubscript comp "UUID"
  let name ← pySubscript comp "Company Name"
  pure (EmbCompany.mk uuid name (pyDictGetD comp "URL" (JVal.s "")))

/-- One iteration of the `for tag in tool.get('Tool Tags', [])` loop of
`create_web_tools`, on the accumulator pair (tag-name list, `tag_colors`
dict): subscript the tag dict for `value` (KeyError if absent), append
the name, and when a `color` key is present assign
`tag_colors[tag_name] = tag['color']` — so within one tool a duplicated
tag name keeps the color of its last colored occurrence. -/
def collectTagStep (p : List JVal × List (JVal × JVal)) (tg : JVal) :
    Except String (List JVal × List (JVal × JVal)) :=
  match tg with
  | JVal.obj d => do
    let tag_name ← pySubscript d "value"
    pure (p.1 ++ [tag_name],
      match pyDictGet d "color" with
      | some c => pyDictInsert p.2 tag_name c
      | none => p.2)
  | _ => Except.error "TypeError: tag is not a dict"

/-- The body of the `for tool in tools` loop of `create_web_tools`:
resolve the `ToolCompany` reference list against the company index, then
walk `Tool Tags` accumulating the plain tag-name list and the
`tag_colors` dict (an assignment per tag carrying a `color` key, so a
duplicated tag name keeps the color of its last colored occurrence
within this tool), then build the tool dict. -/
def processTool (companies_by_id : List (JVal × Row)) (tool : Row) :
    Except String WebTool := do
  let refs ← pyIterList (pyDictGetD tool "ToolCompany" (JVal.arr []))
  let tool_companies ← refs.foldlM (resolveRefsStep companies_by_id enrichCompanyForTool) []
  let tagObjs ← pyIterList (pyDictGetD tool "Tool Tags" (JVal.arr []))
  let tagAcc ← tagObjs.foldlM collectTagStep ([], [])
  let uuid ← pySubscript tool "UUID"
  let name ← pySubscript tool "ToolName"
  pure (WebTool.mk uuid name
    (pyDictGetD tool "Tool Description Short" (JVal.s ""))
    (pyDictGetD tool "ToolDescription_long" (JVal.s ""))
    tagAcc.1 tagAcc.2 tool_companies
    (pyDictGetD tool "Overall Rating" (JVal.s "0"))
    (pyDictGetD tool "Annual License Cost" JVal.null)
    (pyDictGetD tool "URL" (JVal.s ""))
    (pyDictGetD tool "Last modified" (JVal.s "")))

/-- `create_web_tools` from the source. -/
def create_web_tools (tools : List Row) (companies_by_id : List (JVal × Row)) :
    Except String (List WebTool) :=
  tools.mapM (processTool companies_by_id)

/-- One search index record (`create_search_index` appends a
company-shaped dict or a tool-shaped dict). -/
inductive IndexEntry where
  | company : (id : JVal) → (name : JVal) → (url : JVal) →
      (search_text : String) → (tool_count : Nat) → IndexEntry
  | tool : (id : JVal) → (name : JVal) → (url : JVal) → (tags : List JVal) →
      (search_text : String) → (company_count : Nat) → IndexEntry
deriving DecidableEq

/-- The company-entry dict of the first loop of `create_search_index`
(`company['name'].lower()` needs a string name). -/
def mkCompanyEntry (c : WebCompany) : Except String IndexEntry := do
  let st ← pyLower c.name
  pure (IndexEntry.company c.id c.name c.url st c.tool_count)

/-- The tool-entry dict of the second loop of `create_search_index`:
`' '.join` over the tag names and over the embedded company names needs
strings; the name itself goes through an f-string, so any value works. -/
def mkToolEntry (t : WebTool) : Except String IndexEntry := do
  let tags_text ← pyJoin " " t.tags
  let companies_text ← pyJoin " " (t.companies.map EmbCompany.name)
  let st := pyToLower (pyStr t.name ++ " " ++ pyToLower tags_text ++ " " ++
    pyToLower companies_text)
  pure (IndexEntry.tool t.id t.name t.url t.tags st t.companies.length)

/-- `create_search_index` from the source: one entry appended per
company, then one per tool, into a single flat list. -/
def create_search_index (companies : List WebCompany) (tools : List WebTool) :
    Except String (List IndexEntry) := do
  let centries ← companies.mapM mkCompanyEntry
  let tentries ← tools.mapM mkToolEntry
  pure (centries ++ tentries)

/-- One tag catalog record (`extract_all_tags` emits
a name/color dict per entry of the sorted dict). -/
structure TagEntry where
  name : JVal
  color : JVal
deriving DecidableEq

/-- The `tags_dict` accumulation of `extract_all_tags` over one tool:
`if tag_name not in tags_dict: tags_dict[tag_name] = color` (first
binding wins across tools). -/
def addTagColors (d : List (JVal × JVal)) (tc : List (JVal × JVal)) :
    List (JVal × JVal) :=
  tc.foldl (fun d p =>
    if (pyDictGet d p.1).isSome then d else pyDictInsert d p.1 p.2) d

/-- Python `sorted(d.items())` on the tag dict: keys must be mutually
orderable; this is modelled for string keys (the only key type any claim
involves; Python would also sort all-numeric keys, and raises TypeError
on mixed keys). Keys are unique, so the tie-breaking comparison of the
second components is unreachable and the sort is by key. -/
def pySortedItems (d : List (JVal × JVal)) :
    Except String (List (JVal × JVal)) := do
  let keyed ← d.mapM (fun p => match p.1 with
    | JVal.s s => Except.ok (s, p)
    | _ => Except.error "TypeError: unorderable keys")
  pure ((List.insertionSort (fun a b => a.1 ≤ b.1) keyed).map (fun q => q.2))

/-- `extract_all_tags` from the source: union the `tag_colors` dicts of
all enriched tools, first binding of a name winning, then sort by name. -/
def extract_all_tags (tools : List WebTool) : Except String (List TagEntry) := do
  let tags_dict := tools.foldl (fun d t => addTagColors d t.tag_colors) []
  let sorted ← pySortedItems tags_dict
  pure (sorted.map (fun p => TagEntry.mk p.1 p.2))

/-- The summary statistics dict of `calculate_stats`. -/
structure Stats where
  total_companies : Nat
  total_tools : Nat
  companies_with_tools : Nat
  tools_with_companies : Nat
  total_tags : Nat
deriving DecidableEq

/-- `calculate_stats` from the source. -/
def calculate_stats (companies : List WebCompany) (tools : List WebTool) :
    Except String Stats := do
  let allTags ← extract_all_tags tools
  pure (Stats.mk companies.length tools.length
    (companies.filter (fun c => decide (0 < c.tool_count))).length
    (tools.filter (fun t => decide (0 < t.companies.length))).length
    allTags.length)

/-! ## Denormalizer pipeline (`main` of `process_for_web.py`) -/

/-- The five in-memory artifacts `main` computes before persisting. -/
structure Outputs where
  webCompanies : List WebCompany
  webTools : List WebTool
  searchIndex : List IndexEntry
  allTags : List TagEntry
  stats : Stats
deriving DecidableEq

/-- The computation of `main` between loading and persisting: build the
two id indexes, enrich both entity lists, and derive the search index,
tag catalog and stats. The `libraries` snapshot is loaded by `main` but
never read afterwards. -/
def processAll (companies tools libraries : List Row) : Except String Outputs := do
  let tools_by_id ← rowsById tools
  let companies_by_id ← rowsById companies
  let web_companies ← create_web_companies companies tools_by_id
  let web_tools ← create_web_tools tools companies_by_id
  let search_index ← create_search_index web_companies web_tools
  let all_tags ← extract_all_tags web_tools
  let stats ← calculate_stats web_companies web_tools
  pure (Outputs.mk web_companies web_tools search_index all_tags stats)

/-- Content of one output file written by `main` (each artifact is
serialized by `json.dump`, which is a deterministic function of the
value, so value equality models byte equality of the files). -/
inductive OutDoc where
  | companiesDoc : List WebCompany → OutDoc
  | toolsDoc : List WebTool → OutDoc
  | indexDoc : List IndexEntry → OutDoc
  | tagsDoc : List TagEntry → OutDoc
  | statsDoc : Stats → OutDoc
  | allDoc : List WebCompany → List WebTool → List TagEntry → Stats → OutDoc
deriving DecidableEq

/-- The output directory as a map from file name to content. -/
def FS : Type := String → Option OutDoc

/-- One `open(..., 'w')` + `json.dump`: a wholesale overwrite of the
named file. -/
def writeFile (fs : FS) (name : String) (doc : OutDoc) : FS :=
  fun n => if n = name then some doc else fs n

/-- The persistence tail of `main`: write the five artifact files and
the combined `all_data.json` (which bundles companies, tools, tags and
stats), each a wholesale overwrite, in source order. -/
def writeOutputs (o : Outputs) (fs : FS) : FS :=
  writeFile (writeFile (writeFile (writeFile (writeFile (writeFile fs
    "companies.json" (OutDoc.companiesDoc o.webCompanies))
    "tools.json" (OutDoc.toolsDoc o.webTools))
    "search_index.json" (OutDoc.indexDoc o.searchIndex))
    "tags.json" (OutDoc.tagsDoc o.allTags))
    "stats.json" (OutDoc.statsDoc o.stats))
    "all_data.json" (OutDoc.allDoc o.webCompanies o.webTools o.allTags o.stats)

/-- The snapshot directory the Denormalizer reads: file name to parsed
row list. -/
def SnapFS : Type := String → Option (List Row)

/-- `load_snapshots` from the source: all three snapshot files must
exist (a missing file raises `FileNotFoundError`, fatal for the run). -/
def load_snapshots (fs : SnapFS) : Except String (List Row × List Row × List Row) := do
  let companies ← match fs "companies.json" with
    | some v => Except.ok v
    | none => Except.error "FileNotFoundError: companies.json"
  let tools ← match fs "tools.json" with
    | some v => Except.ok v
    | none => Except.error "FileNotFoundError: tools.json"
  let libraries ← match fs "libraries.json" with
    | some v => Except.ok v
    | none => Except.error "FileNotFoundError: libraries.json"
  pure (companies, tools, libraries)

/-- The whole Denormalizer run up to its in-memory artifacts: load the
three snapshots, then process. -/
def runDenormalizer (fs : SnapFS) : Except String Outputs := do
  let snaps ← load_snapshots fs
  processAll snaps.1 snaps.2.1 snaps.2.2

/-! ## Fetcher driver (`main` of `fetch_baserow_tables.py`) -/

/-- What the driver observes of one table: its name, the remote page
behaviour its fetch will see, and optionally an ordinary `Exception`
raised after the fetch returns (e.g. `response.json()` decoding already
consumed inside the loop, or `export_to_json` failing) which the
driver's `except Exception` clause catches. -/
structure TableSpec where
  name : String
  conns : List PageConn
  exc : Option String

/-- One record of the driver's `results_summary`. -/
inductive TableStatus where
  | success : Nat → TableStatus
  | failed : String → TableStatus
deriving DecidableEq

/-- The observable outcome of the driver loop: the summary records made,
and whether the loop ran to completion (`false` when `sys.exit(1)` tore
the whole process down, discarding the summary and skipping the
remaining tables). -/
structure DriverRun where
  summary : List (String × TableStatus)
  completed : Bool
deriving DecidableEq

/-- The `for table_name, table_id in TABLES.items()` loop of the
fetcher's `main`. `fetch_table_with_pagination` exits the process via
`sys.exit(1)` on a fatal page failure; `SystemExit` is not an
`Exception`, so the driver's `except Exception` clause does not catch it
and the process terminates, skipping every remaining table. An ordinary
`Exception` is caught, recorded as a failed status, and the loop
continues. -/
def runTables : List TableSpec → DriverRun
  | [] => DriverRun.mk [] true
  | t :: rest =>
    match fetch_table_with_pagination t.conns none with
    | FetchResult.sysExit _ => DriverRun.mk [] false
    | FetchResult.ok rows _ =>
      match t.exc with
      | some msg =>
        let r := runTables rest
        DriverRun.mk ((t.name, TableStatus.failed msg) :: r.summary) r.completed
      | none =>
        let r := runTables rest
        DriverRun.mk ((t.name, TableStatus.success rows.length) :: r.summary) r.completed

/-- Whether fetching this table ends in the fatal `sys.exit(1)` path. -/
def tableFatal (t : TableSpec) : Bool :=
  match fetch_table_with_pagination t.conns none with
  | FetchResult.sysExit _ => true
  | FetchResult.ok _ _ => false

/-- The summary record the driver makes for a non-fatal table. -/
def tableRecord (t : TableSpec) : String × TableStatus :=
  match fetch_table_with_pagination t.conns none with
  | FetchResult.ok rows _ =>
    match t.exc with
    | some msg => (t.name, TableStatus.failed msg)
    | none => (t.name, TableStatus.success rows.length)
  | FetchResult.sysExit _ => (t.name, TableStatus.failed "unreachable")

/-- A response stream delivering N consecutive 503 responses and then
succeeding with 200. -/
def consecutive503 (N : Nat) : Nat → Resp :=
  fun i => if i < N then Resp.status 503 else Resp.status 200

/-! ## Wellformedness predicates (which fields a row must carry for
enrichment to avoid the KeyError paths) -/

/-- The `Tools` / `ToolCompany` field, when present, is a list of dicts
each carrying an `id` key. Optional: a missing field defaults to `[]`. -/
def refListOK (v : Option JVal) : Prop :=
  match v with
  | none => True
  | some (JVal.arr refs) => ∀ r ∈ refs, ∃ d, r = JVal.obj d ∧ (pyDictGet d "id").isSome
  | some _ => False

/-- The `Tool Tags` field, when present, is a list of dicts each
carrying a `value` key. Optional: a missing field defaults to `[]`. -/
def tagListOK (v : Option JVal) : Prop :=
  match v with
  | none => True
  | some (JVal.arr tags) => ∀ t ∈ tags, ∃ d, t = JVal.obj d ∧ (pyDictGet d "value").isSome
  | some _ => False

/-- The fields a company row must carry to pass `create_web_companies`:
`UUID` and `Company Name` are read by bare subscript (KeyError when
absent); the `Tools` reference list must be wellformed when present.
Every other field read is optional and defaulted. -/
def companyRowOK (c : Row) : Prop :=
  (pyDictGet c "UUID").isSome ∧ (pyDictGet c "Company Name").isSome ∧
    refListOK (pyDictGet c "Tools")

/-- The fields a tool row must carry for the embedded-tool enrichment of
`create_web_companies` (and the matching part of `create_web_tools`):
`UUID` and `ToolName` by bare subscript, each tag dict with a `value`.
Every other field read is optional and defaulted. -/
def toolRowOK (t : Row) : Prop :=
  (pyDictGet t "UUID").isSome ∧ (pyDictGet t "ToolName").isSome ∧
    tagListOK (pyDictGet t "Tool Tags")

/-- The fields a company row must carry to be embeddable in a tool
(`create_web_tools` reads `UUID` and `Company Name` by bare subscript). -/
def companyRowMin (r : Row) : Prop :=
  (pyDictGet r "UUID").isSome ∧ (pyDictGet r "Company Name").isSome

/-! ## Spec-side comparison functions for the tag catalog claim -/

/-- The (tag value, optional color) occurrence list of one tag-dict
list, in order. -/
def pairsOfObjs (tagObjs : List JVal) : List (JVal × Option JVal) :=
  tagObjs.filterMap (fun tg => match tg with
    | JVal.obj d => (pyDictGet d "value").map (fun v => (v, pyDictGet d "color"))
    | _ => none)

/-- The (tag value, optional color) occurrence list of one raw tool row,
in order. -/
def tagPairsOf (t : Row) : List (JVal × Option JVal) :=
  match pyDictGet t "Tool Tags" with
  | some (JVal.arr tags) => pairsOfObjs tags
  | _ => []

/-- The color of the last colored occurrence of a tag name in an
occurrence list (later occurrences take precedence). -/
def lastColoredOfPairs : List (JVal × Option JVal) → JVal → Option JVal
  | [], _ => none
  | p :: rest, n =>
    (lastColoredOfPairs rest n) <|> (if p.1 = n then p.2 else none)

/-- Modelled from the spec as amended by the counterexample: the color
the catalog pairs with a tag name — the first tool (in input order)
carrying a colored occurrence of the name contributes the color of its
last colored occurrence of that name. -/
def amendedTagColor : List Row → JVal → Option JVal
  | [], _ => none
  | t :: rest, n =>
    (lastColoredOfPairs (tagPairsOf t) n) <|> (amendedTagColor rest n)

/-- The color attached to the first occurrence of a tag name in an
occurrence list. -/
def firstOccColorOfPairs : List (JVal × Option JVal) → JVal → Option JVal
  | [], _ => none
  | p :: rest, n => if p.1 = n then p.2 else firstOccColorOfPairs rest n

/-- Modelled from the spec: the color of the first occurrence of a tag
name across all tools in input order. -/
def specFirstOccurrenceColor (tools : List Row) (name : JVal) : Option JVal :=
  firstOccColorOfPairs (tools.map tagPairsOf).flatten name

/-- The (type, id) signature of a search index entry. -/
def entryTag : IndexEntry → String × JVal
  | IndexEntry.company i _ _ _ _ => ("company", i)
  | IndexEntry.tool i _ _ _ _ _ => ("tool", i)

/-! ## Concrete inputs used by counterexamples and witnesses -/

/-- A page request answering 200 immediately. -/
def okResps : Nat → Resp := fun _ => Resp.status 200

/-- A page request answering 404 (non-retryable) immediately. -/
def notFoundResps : Nat → Resp := fun _ => Resp.status 404

/-- A nonempty page carrying one row with id 1. -/
def c5PageA : PageConn := PageConn.mk okResps [[("id", JVal.n 1)]]

/-- An empty page in the middle of a chain (its body still carries a
non-null `next`, i.e. the chain continues). -/
def c5PageEmpty : PageConn := PageConn.mk okResps []

/-- A nonempty page carrying one row with id 2. -/
def c5PageB : PageConn := PageConn.mk okResps [[("id", JVal.n 2)]]

/-- A page carrying two rows. -/
def c6PageTwo : PageConn := PageConn.mk okResps [[("id", JVal.n 1)], [("id", JVal.n 2)]]

/-- A one-row page used by the limit-zero counterexample. -/
def c6PageOne : PageConn := PageConn.mk okResps [[("id", JVal.n 1)]]

/-- A table whose very first page request answers 404, driving the
source into `sys.exit(1)`. -/
def c2FatalTable : TableSpec := TableSpec.mk "companies" [PageConn.mk notFoundResps []] none

/-- A healthy one-page table. -/
def c2OkTable : TableSpec := TableSpec.mk "tools" [PageConn.mk okResps [[("id", JVal.n 1)]]] none

/-- A healthy table for the driver witness. -/
def c2Alpha : TableSpec := TableSpec.mk "alpha" [PageConn.mk okResps [[("id", JVal.n 1)]]] none

/-- A table whose export raises an ordinary `Exception`. -/
def c2Beta : TableSpec := TableSpec.mk "beta" [PageConn.mk okResps [[("id", JVal.n 2)]]] (some "boom")

/-- A fatal table for the driver witness. -/
def c2Gamma : TableSpec := TableSpec.mk "gamma" [PageConn.mk notFoundResps []] none

/-- A table behind the fatal one, never reached. -/
def c2Delta : TableSpec := TableSpec.mk "delta" [PageConn.mk okResps [[("id", JVal.n 3)]]] none

/-- A company row missing its `UUID` field. -/
def c1NoUuidRow : Row := [("Company Name", JVal.s "A")]

/-- A company row carrying only the mandatory fields: every optional
field (URL, notes, the `Tools` reference list) is absent. -/
def c1MinCompany : Row := [("UUID", JVal.s "u"), ("Company Name", JVal.s "A")]

/-- A tool row carrying only the mandatory fields: every optional field
(descriptions, tag list, reference list, rating, cost, URL,
last-modified) is absent. -/
def c1MinTool : Row := [("UUID", JVal.s "u2"), ("ToolName", JVal.s "X")]

/-- A company row referencing the nonexistent tool id 99. -/
def c7DanglingCompany : Row :=
  [("id", JVal.n 1), ("UUID", JVal.s "c1"), ("Company Name", JVal.s "A"),
   ("Tools", JVal.arr [JVal.obj [("id", JVal.n 99)]])]

/-- The enrichment of `c7DanglingCompany` against an empty tool index. -/
def c7DanglingWc : WebCompany :=
  WebCompany.mk (JVal.s "c1") (JVal.s "A") (JVal.s "") (JVal.s "") [] 0

/-- A tool row whose tag list carries the same tag name twice with two
different colors (blue first, red second). -/
def c3DupTool : Row :=
  [("id", JVal.n 1), ("UUID", JVal.s "t1"), ("ToolName", JVal.s "X"),
   ("Tool Tags", JVal.arr
     [JVal.obj [("value", JVal.s "ml"), ("color", JVal.s "blue")],
      JVal.obj [("value", JVal.s "ml"), ("color", JVal.s "red")]])]

/-- The enrichment of `c3DupTool`: the duplicated tag name appears twice
in `tags`, and `tag_colors` keeps the color of the last occurrence. -/
def c3DupWebTool : WebTool :=
  WebTool.mk (JVal.s "t1") (JVal.s "X") (JVal.s "") (JVal.s "")
    [JVal.s "ml", JVal.s "ml"] [(JVal.s "ml", JVal.s "red")] []
    (JVal.s "0") JVal.null (JVal.s "") (JVal.s "")

/-- An enriched company for the search index witness. -/
def c8Company : WebCompany :=
  WebCompany.mk (JVal.s "u1") (JVal.s "Acme") (JVal.s "") (JVal.s "") [] 0

/-- An enriched tool for the search index witness. -/
def c8Tool : WebTool :=
  WebTool.mk (JVal.s "u2") (JVal.s "X") (JVal.s "") (JVal.s "") [] [] []
    (JVal.s "0") JVal.null (JVal.s "") (JVal.s "")

/-- The search index built from `c8Company` and `c8Tool`. -/
def c8Index : List IndexEntry :=
  [IndexEntry.company (JVal.s "u1") (JVal.s "Acme") (JVal.s "") "acme" 0,
   IndexEntry.tool (JVal.s "u2") (JVal.s "X") (JVal.s "") [] "x  " 0]

/-- The artifacts of a Denormalizer run over three empty snapshots. -/
def c9EmptyOut : Outputs := Outputs.mk [] [] [] [] (Stats.mk 0 0 0 0 0)

/-- An empty output directory. -/
def c9EmptyFS : FS := fun _ => none

/-- A snapshot directory with empty companies and tools files. -/
def c10Base : SnapFS := fun n =>
  if n = "companies.json" then some []
  else if n = "tools.json" then some [] else none

/-- `c10Base` plus a one-row libraries file. -/
def c10Fs1 : SnapFS := fun n =>
  if n = "libraries.json" then some [[("id", JVal.n 1), ("Name", JVal.s "lib")]]
  else c10Base n

/-- `c10Base` plus an empty libraries file. -/
def c10Fs2 : SnapFS := fun n =>
  if n = "libraries.json" then some [] else c10Base n

/-! ## General lemmas about the embedded effects and dicts -/

/-- A bound `Except` computation succeeds exactly when both stages do. -/
theorem ebind_ok {ε α β : Type} {x : Except ε α} {f : α → Except ε β} {b : β} :
    x >>= f = Except.ok b ↔ ∃ a, x = Except.ok a ∧ f a = Except.ok b := by
  cases x with
  | error e => simp [Bind.bind, Except.bind]
  | ok a => simp [Bind.bind, Except.bind]

/-- `pure` in `Except` is `Except.ok`. -/
theorem epure_ok {ε α : Type} {a b : α} :
    (pure a : Except ε α) = Except.ok b ↔ a = b := by
  simp [pure, Except.pure]

/-- Builds a successful bound computation from successful stages. -/
theorem ebind_ok_ex {ε α β : Type} {x : Except ε α} {f : α → Except ε β}
    (h : ∃ a, x = Except.ok a ∧ ∃ b, f a = Except.ok b) :
    ∃ b, x >>= f = Except.ok b := by
  rcases h with ⟨a, ha, b, hb⟩
  exact ⟨b, ebind_ok.mpr ⟨a, ha, hb⟩⟩

/-- A successful `mapM` preserves the length. -/
theorem mapM_ok_length {α β : Type} (f : α → Except String β) :
    ∀ {xs : List α} {ys : List β}, xs.mapM f = Except.ok ys → ys.length = xs.length := by
  intro xs
  induction xs with
  | nil =>
    intro ys h
    rw [List.mapM_nil] at h
    rw [← epure_ok.mp h]
    rfl
  | cons x xs ih =>
    intro ys h
    rw [List.mapM_cons] at h
    rcases ebind_ok.mp h with ⟨y, hy, h2⟩
    rcases ebind_ok.mp h2 with ⟨ys2, hys2, h3⟩
    rw [← epure_ok.mp h3]
    simp [ih hys2]

/-- Every element of a successful `mapM` comes from an element of the
input. -/
theorem mapM_ok_mem {α β : Type} (f : α → Except String β) :
    ∀ {xs : List α} {ys : List β}, xs.mapM f = Except.ok ys →
      ∀ y ∈ ys, ∃ x ∈ xs, f x = Except.ok y := by
  intro xs
  induction xs with
  | nil =>
    intro ys h y hy
    rw [List.mapM_nil] at h
    rw [← epure_ok.mp h] at hy
    simp at hy
  | cons x xs ih =>
    intro ys h y hy
    rw [List.mapM_cons] at h
    rcases ebind_ok.mp h with ⟨y0, hy0, h2⟩
    rcases ebind_ok.mp h2 with ⟨ys2, hys2, h3⟩
    rw [← epure_ok.mp h3] at hy
    rcases List.mem_cons.mp hy with rfl | hmem
    · exact ⟨x, List.mem_cons_self x xs, hy0⟩
    · rcases ih hys2 y hmem with ⟨x2, hx2, hfx2⟩
      exact ⟨x2, List.mem_cons_of_mem x hx2, hfx2⟩

/-- Mapping a successful `mapM` output elementwise agrees with mapping
the input, given a pointwise correspondence. -/
theorem mapM_ok_map {α β γ : Type} (f : α → Except String β) (g : β → γ) (h : α → γ)
    (hp : ∀ x y, f x = Except.ok y → g y = h x) :
    ∀ {xs : List α} {ys : List β}, xs.mapM f = Except.ok ys → ys.map g = xs.map h := by
  intro xs
  induction xs with
  | nil =>
    intro ys hok
    rw [List.mapM_nil] at hok
    rw [← epure_ok.mp hok]
    rfl
  | cons x xs ih =>
    intro ys hok
    rw [List.mapM_cons] at hok
    rcases ebind_ok.mp hok with ⟨y0, hy0, h2⟩
    rcases ebind_ok.mp h2 with ⟨ys2, hys2, h3⟩
    rw [← epure_ok.mp h3]
    simp [hp x y0 hy0, ih hys2]

/-- `filterMap` over a successful `mapM` output agrees with `filterMap`
over the input, given a pointwise correspondence of the partial maps. -/
theorem mapM_ok_filterMap {α β γ : Type} (f : α → Except String β)
    (g : β → Option γ) (h : α → Option γ)
    (hp : ∀ x y, f x = Except.ok y → g y = h x) :
    ∀ {xs : List α} {ys : List β}, xs.mapM f = Except.ok ys →
      ys.filterMap g = xs.filterMap h := by
  intro xs
  induction xs with
  | nil =>
    intro ys hok
    rw [List.mapM_nil] at hok
    rw [← epure_ok.mp hok]
    rfl
  | cons x xs ih =>
    intro ys hok
    rw [List.mapM_cons] at hok
    rcases ebind_ok.mp hok with ⟨y0, hy0, h2⟩
    rcases ebind_ok.mp h2 with ⟨ys2, hys2, h3⟩
    rw [← epure_ok.mp h3]
    simp [List.filterMap_cons, hp x y0 hy0, ih hys2]

/-- A `mapM` whose every element succeeds succeeds. -/
theorem mapM_ok_of_all {α β : Type} (f : α → Except String β) :
    ∀ (xs : List α), (∀ x ∈ xs, ∃ y, f x = Except.ok y) →
      ∃ ys, xs.mapM f = Except.ok ys := by
  intro xs
  induction xs with
  | nil =>
    intro _
    exact ⟨[], by rw [List.mapM_nil]; exact epure_ok.mpr rfl⟩
  | cons x xs ih =>
    intro hall
    rcases hall x (List.mem_cons_self x xs) with ⟨y, hy⟩
    rcases ih (fun z hz => hall z (List.mem_cons_of_mem x hz)) with ⟨ys, hys⟩
    refine ⟨y :: ys, ?_⟩
    rw [List.mapM_cons]
    exact ebind_ok.mpr ⟨y, hy, ebind_ok.mpr ⟨ys, hys, epure_ok.mpr rfl⟩⟩

/-- Looking a key up after a dict assignment. -/
theorem pyDictGet_insert {α β : Type} [DecidableEq α] (d : List (α × β)) (k k' : α) (v : β) :
    pyDictGet (pyDictInsert d k v) k' = if k = k' then some v else pyDictGet d k' := by
  induction d with
  | nil =>
    by_cases h : k = k' <;> simp [pyDictInsert, pyDictGet, h]
  | cons p rest ih =>
    obtain ⟨a, b⟩ := p
    simp only [pyDictInsert]
    by_cases h1 : a = k
    · rw [if_pos h1]
      by_cases h2 : k = k'
      · simp [pyDictGet, h2]
      · have h3 : ¬ (a = k') := by rw [h1]; exact h2
        simp [pyDictGet, h2, h3]
    · rw [if_neg h1]
      by_cases h2 : a = k'
      · have h3 : ¬ (k = k') := fun hh => h1 (h2.trans hh.symm)
        simp [pyDictGet, h2, h3]
      · simp [pyDictGet, h2, ih]

/-- A dict lookup misses exactly when the key is absent. -/
theorem pyDictGet_eq_none {α β : Type} [DecidableEq α] (d : List (α × β)) (k : α) :
    pyDictGet d k = none ↔ k ∉ d.map Prod.fst := by
  induction d with
  | nil => simp [pyDictGet]
  | cons p rest ih =>
    obtain ⟨a, b⟩ := p
    by_cases h : a = k
    · subst h
      simp [pyDictGet]
    · have h' : ¬ (k = a) := fun hh => h hh.symm
      simp [pyDictGet, h, h', ih]

/-- A successful dict lookup returns a binding of the list. -/
theorem pyDictGet_mem {α β : Type} [DecidableEq α] :
    ∀ {d : List (α × β)} {k : α} {v : β},
      pyDictGet d k = some v → (k, v) ∈ d := by
  intro d
  induction d with
  | nil => intro k v h; simp [pyDictGet] at h
  | cons p rest ih =>
    intro k v h
    by_cases h1 : p.1 = k
    · simp [pyDictGet, h1] at h
      rw [← h1, ← h]
      exact List.mem_cons_self p rest
    · simp [pyDictGet, h1] at h
      exact List.mem_cons_of_mem p (ih h)

/-- On a unique-key dict, membership of a binding is exactly a
successful lookup. -/
theorem mem_iff_pyDictGet {α β : Type} [DecidableEq α] :
    ∀ {d : List (α × β)}, (d.map Prod.fst).Nodup →
      ∀ {k : α} {v : β}, ((k, v) ∈ d ↔ pyDictGet d k = some v) := by
  intro d
  induction d with
  | nil => intro _ k v; simp [pyDictGet]
  | cons p rest ih =>
    intro hnd k v
    rw [List.map_cons, List.nodup_cons] at hnd
    by_cases h1 : p.1 = k
    · constructor
      · intro hm
        rcases List.mem_cons.mp hm with rfl | hm2
        · simp [pyDictGet, h1]
        · exact absurd (h1 ▸ (List.mem_map.mpr ⟨(k, v), hm2, rfl⟩)) hnd.1
      · intro hg
        simp [pyDictGet, h1] at hg
        rw [← h1, ← hg]
        exact List.mem_cons_self p rest
    · constructor
      · intro hm
        rcases List.mem_cons.mp hm with rfl | hm2
        · exact absurd rfl h1
        · simp [pyDictGet, h1]
          exact (ih hnd.2).mp hm2
      · intro hg
        simp [pyDictGet, h1] at hg
        exact List.mem_cons_of_mem p ((ih hnd.2).mpr hg)

/-- Associativity of `Option` alternation. -/
theorem optOrElse_assoc {α : Type} (a b c : Option α) :
    ((a <|> b) <|> c) = (a <|> (b <|> c)) := by
  cases a <;> rfl

/-! ## C4: retry budget and backoff -/

/-- C4: for a page request seeing N consecutive 503 responses, if N is
below the retry budget of `MAX_RETRIES = 3` attempts the Fetcher
eventually succeeds (on attempt N + 1) and the total elapsed backoff
delay is the sum of the configured delays (1s, 2s, 4s) for the N failed
attempts consumed; if N is at or above the budget the Fetcher exits
fatally after exactly 3 attempts. -/
theorem c4_retry_budget (N : Nat) :
    (N < MAX_RETRIES →
      requestPage (consecutive503 N) =
        PageOutcome.ok (N + 1) ((RETRY_DELAYS.take N).sum)) ∧
    (MAX_RETRIES ≤ N →
      requestPage (consecutive503 N) =
        PageOutcome.exitRun MAX_RETRIES ((RETRY_DELAYS.take (MAX_RETRIES - 1)).sum)) := by
  constructor
  · intro h
    have h3 : N < 3 := h
    interval_cases N <;> decide
  · intro h
    have h3 : 3 ≤ N := h
    have h0 : consecutive503 N 0 = Resp.status 503 := by
      unfold consecutive503
      rw [if_pos (by omega)]
    have h1 : consecutive503 N 1 = Resp.status 503 := by
      unfold consecutive503
      rw [if_pos (by omega)]
    have h2 : consecutive503 N 2 = Resp.status 503 := by
      unfold consecutive503
      rw [if_pos (by omega)]
    have hr : List.range MAX_RETRIES = [0, 1, 2] := rfl
    rw [requestPage, hr]
    simp [retryGo, h0, h1, h2, isRetryable, RETRY_DELAYS, MAX_RETRIES]

/-- C4 witness: at N = 2 the request succeeds on the third attempt after
1 + 2 seconds of backoff; at N = 5 it exits after exactly 3 attempts. -/
theorem c4_retry_budget_witness :
    (2 < MAX_RETRIES ∧ requestPage (consecutive503 2) = PageOutcome.ok 3 3) ∧
    (MAX_RETRIES ≤ 5 ∧ requestPage (consecutive503 5) = PageOutcome.exitRun 3 3) :=
  ⟨⟨by decide, (c4_retry_budget 2).1 (by decide)⟩,
   ⟨by decide, (c4_retry_budget 5).2 (by decide)⟩⟩

/-! ## C5: pagination follows the chain without loss or duplication -/

/-- The pagination loop under no limit accumulates every page of the
chain when every page request succeeds and every page is nonempty. -/
theorem fetchLoop_none_ok :
    ∀ (conns : List PageConn) (acc : List Row) (p : Nat),
      (∀ c ∈ conns, ∃ a d, requestPage c.resps = PageOutcome.ok a d) →
      (∀ c ∈ conns, c.results ≠ []) →
      fetchLoop none conns acc p =
        FetchResult.ok (acc ++ (conns.map PageConn.results).flatten) (p + conns.length) := by
  intro conns
  induction conns with
  | nil => intro acc p _ _; simp [fetchLoop]
  | cons c rest ih =>
    intro acc p hok hne
    rcases hok c (List.mem_cons_self c rest) with ⟨a, d, hreq⟩
    have hner : c.results ≠ [] := hne c (List.mem_cons_self c rest)
    simp only [fetchLoop, hreq]
    rw [if_neg hner]
    have hlim : limitHit none (acc ++ c.results).length = false := rfl
    rw [hlim]
    simp only [Bool.false_eq_true, if_false]
    rw [ih (acc ++ c.results) (p + 1)
      (fun x hx => hok x (List.mem_cons_of_mem c hx))
      (fun x hx => hne x (List.mem_cons_of_mem c hx))]
    simp only [List.map_cons, List.flatten_cons, List.append_assoc, List.length_cons]
    congr 1
    omega

/-- C5 (amended: provided no page of the chain is empty — the source
treats an empty page as end of data and stops following `next` there):
for any finite chain of pages delivered fully by the remote API, the
pagination loop terminates (it is structurally recursive on the chain)
after visiting every page, and the accumulated row list is exactly the
concatenation of all pages — no row duplicated, none dropped — when no
row limit is set. -/
theorem c5_pagination_exact (conns : List PageConn)
    (hok : ∀ c ∈ conns, ∃ a d, requestPage c.resps = PageOutcome.ok a d)
    (hne : ∀ c ∈ conns, c.results ≠ []) :
    fetch_table_with_pagination conns none =
      FetchResult.ok (conns.map PageConn.results).flatten conns.length := by
  have h := fetchLoop_none_ok conns [] 0 hok hne
  simpa [fetch_table_with_pagination] using h

/-- C5 counterexample: a chain whose middle page is empty but still
carries a `next` pointer. The loop breaks at the empty page (source:
`if not rows: break`), dropping the third page entirely, so the result
is not the concatenation of all pages returned by the API. -/
theorem c5_counterexample :
    fetch_table_with_pagination [c5PageA, c5PageEmpty, c5PageB] none =
      FetchResult.ok [[("id", JVal.n 1)]] 2 ∧
    ([[("id", JVal.n 1)]] : List Row) ≠
      ([c5PageA, c5PageEmpty, c5PageB].map PageConn.results).flatten := by
  constructor
  · rfl
  · decide

/-- C5 witness: a two-page chain of nonempty pages is fetched exactly. -/
theorem c5_pagination_exact_witness :
    fetch_table_with_pagination [c5PageA, c5PageB] none =
      FetchResult.ok ([c5PageA, c5PageB].map PageConn.results).flatten 2 := by
  refine c5_pagination_exact [c5PageA, c5PageB] ?_ ?_
  · intro c hc
    rcases List.mem_cons.mp hc with rfl | hc2
    · exact ⟨1, 0, rfl⟩
    · rcases List.mem_cons.mp hc2 with rfl | hc3
      · exact ⟨1, 0, rfl⟩
      · simp at hc3
  · intro c hc
    rcases List.mem_cons.mp hc with rfl | hc2
    · simp [c5PageA]
    · rcases List.mem_cons.mp hc2 with rfl | hc3
      · simp [c5PageB]
      · simp at hc3

/-! ## C6: row limit truncation -/

/-- The pagination loop under a positive limit: the number of rows
returned is the number accumulated over the pages actually followed,
capped at the limit. -/
theorem fetchLoop_some_len (l : Int) (hl : 1 ≤ l) :
    ∀ (conns : List PageConn) (acc : List Row) (p : Nat) (rows : List Row) (pf : Nat),
      (∀ c ∈ conns, ∃ a d, requestPage c.resps = PageOutcome.ok a d) →
      ((acc.length : Int) < l) →
      fetchLoop (some l) conns acc p = FetchResult.ok rows pf →
      p ≤ pf ∧
      rows.length =
        min (acc.length + (((conns.take (pf - p)).map (fun c => c.results.length)).sum))
          l.toNat := by
  intro conns
  induction conns with
  | nil =>
    intro acc p rows pf _ hacc h
    simp only [fetchLoop, FetchResult.ok.injEq] at h
    obtain ⟨rfl, rfl⟩ := h
    refine ⟨le_refl p, ?_⟩
    simp
    omega
  | cons c rest ih =>
    intro acc p rows pf hok hacc h
    rcases hok c (List.mem_cons_self c rest) with ⟨a, d, hreq⟩
    simp only [fetchLoop, hreq] at h
    by_cases hres : c.results = []
    · rw [if_pos hres] at h
      simp only [FetchResult.ok.injEq] at h
      obtain ⟨rfl, rfl⟩ := h
      refine ⟨by omega, ?_⟩
      have hstep : p + 1 - p = 1 := by omega
      rw [hstep, List.take_succ_cons, List.take_zero]
      simp [hres]
      omega
    · rw [if_neg hres] at h
      by_cases hhit : limitHit (some l) (acc ++ c.results).length = true
      · rw [if_pos hhit] at h
        simp only [limitHit, ne_eq, Bool.and_eq_true, decide_eq_true_eq,
          bne_iff_ne] at hhit
        simp only [FetchResult.ok.injEq] at h
        obtain ⟨rfl, rfl⟩ := h
        refine ⟨by omega, ?_⟩
        have hstep : p + 1 - p = 1 := by omega
        rw [hstep, List.take_succ_cons, List.take_zero]
        simp only [Option.getD_some, pySlice]
        rw [if_pos (by omega : (0 : Int) ≤ l)]
        simp only [List.length_take, List.length_append, List.map_cons,
          List.map_nil, List.sum_cons, List.sum_nil]
        have hle : l ≤ ((acc.length + c.results.length : Nat) : Int) := by
          have := hhit.2
          simpa using this
        omega
      · rw [if_neg hhit] at h
        have hacc2 : (((acc ++ c.results).length : Nat) : Int) < l := by
          simp only [limitHit, ne_eq, Bool.and_eq_true, decide_eq_true_eq,
            bne_iff_ne] at hhit
          push_neg at hhit
          have := hhit (by omega : l ≠ 0)
          omega
        obtain ⟨hple, hlen⟩ := ih (acc ++ c.results) (p + 1) rows pf
          (fun x hx => hok x (List.mem_cons_of_mem c hx)) hacc2 h
        refine ⟨by omega, ?_⟩
        have hstep : pf - p = (pf - (p + 1)) + 1 := by omega
        rw [hstep, List.take_succ_cons]
        simp only [List.length_append] at hlen
        simp only [List.map_cons, List.sum_cons]
        omega

/-- C6 (amended: for a positive row limit — the source condition
`if limit and len(all_rows) >= limit` treats a limit of 0 as no limit at
all): the number of rows returned equals the number of rows accumulated
over the pages actually followed, truncated to exactly the limit when it
is exceeded; and a limit no larger than the first page causes exactly
one page to be fetched, then truncation. -/
theorem c6_limit_truncation (conns : List PageConn) (l : Int) (hl : 1 ≤ l)
    (hok : ∀ c ∈ conns, ∃ a d, requestPage c.resps = PageOutcome.ok a d) :
    (∀ rows pf, fetch_table_with_pagination conns (some l) = FetchResult.ok rows pf →
      rows.length = min (((conns.take pf).map (fun c => c.results.length)).sum) l.toNat) ∧
    (∀ c1 crest, conns = c1 :: crest → l ≤ ((c1.results.length : Nat) : Int) →
      fetch_table_with_pagination conns (some l) =
        FetchResult.ok (c1.results.take l.toNat) 1) := by
  constructor
  · intro rows pf h
    have h0 : ((([] : List Row).length : Nat) : Int) < l := by simp; omega
    have := fetchLoop_some_len l hl conns [] 0 rows pf hok h0 h
    simpa using this.2
  · rintro c1 crest rfl hlen
    rcases hok c1 (List.mem_cons_self c1 crest) with ⟨a, d, hreq⟩
    have hne : c1.results ≠ [] := by
      intro hh
      rw [hh] at hlen
      simp at hlen
      omega
    unfold fetch_table_with_pagination
    simp only [fetchLoop, hreq]
    rw [if_neg hne]
    have hhit : limitHit (some l) (([] : List Row) ++ c1.results).length = true := by
      simp only [limitHit, ne_eq, Bool.and_eq_true, decide_eq_true_eq, bne_iff_ne]
      constructor
      · omega
      · simpa using hlen
    rw [if_pos hhit]
    simp only [Option.getD_some, pySlice]
    rw [if_pos (by omega : (0 : Int) ≤ l)]
    simp

/-- C6 counterexample: a limit of 0 is set and exceeded by a one-row
page, yet the source keeps the row — `if limit and ...` is false for a
zero limit, so no truncation happens and 1 row is written instead of 0. -/
theorem c6_counterexample :
    fetch_table_with_pagination [c6PageOne] (some 0) =
      FetchResult.ok [[("id", JVal.n 1)]] 1 ∧
    ([[("id", JVal.n 1)]] : List Row).length ≠ 0 := by
  exact ⟨rfl, by decide⟩

/-- C6 witness: a limit of 1 against a two-row first page fetches one
page and truncates to one row. -/
theorem c6_limit_truncation_witness :
    fetch_table_with_pagination [c6PageTwo] (some 1) =
      FetchResult.ok (c6PageTwo.results.take (1 : Int).toNat) 1 := by
  refine (c6_limit_truncation [c6PageTwo] 1 (by decide) ?_).2 c6PageTwo [] rfl (by decide)
  intro c hc
  rcases List.mem_cons.mp hc with rfl | hc2
  · exact ⟨1, 0, rfl⟩
  · simp at hc2

/-! ## C2: fatal fetch failures and the driver loop -/

/-- C2 (amended): a fatal fetch failure — a non-retryable HTTP status or
retry-budget exhaustion — calls `sys.exit(1)` inside
`fetch_table_with_pagination`; `SystemExit` is not caught by the
driver's `except Exception`, so the whole process terminates before any
remaining table is attempted and the failing table gets no summary
record. Only tables up to the fatal one are processed, each recorded as
success or — when an ordinary `Exception` is raised — as failed, with
processing continuing past it. -/
theorem c2_fatal_terminates (pre : List TableSpec) (tbad : TableSpec)
    (rest : List TableSpec)
    (hpre : ∀ t ∈ pre, tableFatal t = false) (hbad : tableFatal tbad = true) :
    runTables (pre ++ tbad :: rest) = DriverRun.mk (pre.map tableRecord) false := by
  induction pre with
  | nil =>
    simp only [List.nil_append, List.map_nil]
    unfold tableFatal at hbad
    cases hfetch : fetch_table_with_pagination tbad.conns none with
    | ok rows k =>
      rw [hfetch] at hbad
      simp at hbad
    | sysExit k =>
      simp [runTables, hfetch]
  | cons t pre ih =>
    have hft : tableFatal t = false := hpre t (List.mem_cons_self t pre)
    cases hfetch : fetch_table_with_pagination t.conns none with
    | sysExit k =>
      unfold tableFatal at hft
      rw [hfetch] at hft
      simp at hft
    | ok rows k =>
      simp only [List.cons_append, runTables, hfetch]
      cases hexc : t.exc with
      | none =>
        simp only [List.append_eq]
        rw [ih (fun x hx => hpre x (List.mem_cons_of_mem t hx))]
        simp [tableRecord, hfetch, hexc]
      | some msg =>
        simp only [List.append_eq]
        rw [ih (fun x hx => hpre x (List.mem_cons_of_mem t hx))]
        simp [tableRecord, hfetch, hexc]

/-- C2 counterexample: the first table's first page request answers 404,
a non-retryable status, so the source exits the process: the driver
records nothing — the failing table has no failed record and the second
table is never attempted, against the claim that the driver records the
failure and continues. -/
theorem c2_counterexample :
    ¬ ((∃ msg, ("companies", TableStatus.failed msg) ∈
          (runTables [c2FatalTable, c2OkTable]).summary) ∧
       (∃ st, ("tools", st) ∈ (runTables [c2FatalTable, c2OkTable]).summary)) := by
  have h : runTables [c2FatalTable, c2OkTable] = DriverRun.mk [] false := rfl
  rw [h]
  simp

/-- C2 witness: a healthy table and a table with an export exception are
both recorded (success and failed) and processing continues past them;
the fatal third table kills the run and the fourth is never reached. -/
theorem c2_fatal_terminates_witness :
    runTables [c2Alpha, c2Beta, c2Gamma, c2Delta] =
      DriverRun.mk
        [("alpha", TableStatus.success 1), ("beta", TableStatus.failed "boom")]
        false := by
  have hpre : ∀ t ∈ [c2Alpha, c2Beta], tableFatal t = false := by
    intro t ht
    rcases List.mem_cons.mp ht with rfl | ht2
    · rfl
    · rcases List.mem_cons.mp ht2 with rfl | ht3
      · rfl
      · simp at ht3
  exact c2_fatal_terminates [c2Alpha, c2Beta] c2Gamma [c2Delta] hpre rfl

/-! ## C8: search index ordering -/

/-- C8: the search index contains exactly one entry per company followed
by exactly one entry per tool — all companies first, in input order,
then all tools, in input order (witnessed by the (type, id) signature of
each entry). -/
theorem c8_search_index_order (cs : List WebCompany) (ts : List WebTool)
    (idx : List IndexEntry) (h : create_search_index cs ts = Except.ok idx) :
    idx.map entryTag =
      cs.map (fun c => ("company", c.id)) ++ ts.map (fun t => ("tool", t.id)) ∧
    idx.length = cs.length + ts.length := by
  unfold create_search_index at h
  rcases ebind_ok.mp h with ⟨ce, hce, h2⟩
  rcases ebind_ok.mp h2 with ⟨te, hte, h3⟩
  rw [← epure_ok.mp h3]
  have hcmap : ce.map entryTag = cs.map (fun c => ("company", c.id)) := by
    refine mapM_ok_map _ _ _ ?_ hce
    intro c e hc
    unfold mkCompanyEntry at hc
    rcases ebind_ok.mp hc with ⟨st, hst, hp⟩
    rw [← epure_ok.mp hp]
    rfl
  have htmap : te.map entryTag = ts.map (fun t => ("tool", t.id)) := by
    refine mapM_ok_map _ _ _ ?_ hte
    intro t e ht
    unfold mkToolEntry at ht
    rcases ebind_ok.mp ht with ⟨tt, htt, h4⟩
    rcases ebind_ok.mp h4 with ⟨ct, hct, h5⟩
    rw [← epure_ok.mp h5]
    rfl
  constructor
  · rw [List.map_append, hcmap, htmap]
  · have hcl := mapM_ok_length _ hce
    have htl := mapM_ok_length _ hte
    simp [hcl, htl]

/-- C8 witness: one company and one tool produce a two-entry index,
company entry first. -/
theorem c8_search_index_order_witness :
    c8Index.map entryTag =
      [c8Company].map (fun c => ("company", c.id)) ++
        [c8Tool].map (fun t => ("tool", t.id)) ∧
    c8Index.length = [c8Company].length + [c8Tool].length :=
  c8_search_index_order [c8Company] [c8Tool] c8Index (by rfl)

/-! ## C9: determinism and idempotent persistence -/

/-- C9: the Denormalizer is a pure function of the three snapshots
(`processAll` has no other input), and persistence is a wholesale
overwrite of the six output files; hence a second run over the unchanged
snapshots recomputes the same artifacts and rewrites every file with
identical content — the output directory after two runs equals the
directory after one (value equality models byte equality, `json.dump`
being deterministic). -/
theorem c9_idempotent (companies tools libraries : List Row) (o : Outputs)
    (h : processAll companies tools libraries = Except.ok o) (fs : FS) :
    writeOutputs o (writeOutputs o fs) = writeOutputs o fs := by
  funext n
  simp only [writeOutputs, writeFile]
  split_ifs <;> rfl

/-- C9 witness: a run over three empty snapshots, persisted twice into
an empty directory, leaves the directory of a single run. -/
theorem c9_idempotent_witness :
    processAll [] [] [] = Except.ok c9EmptyOut ∧
    writeOutputs c9EmptyOut (writeOutputs c9EmptyOut c9EmptyFS) =
      writeOutputs c9EmptyOut c9EmptyFS :=
  ⟨by rfl, c9_idempotent [] [] [] c9EmptyOut (by rfl) c9EmptyFS⟩

/-! ## C10: the libraries snapshot never influences the output -/

/-- C10: two Denormalizer runs whose snapshot directories agree on every
file except `libraries.json` — which both contain, since loading
requires it to exist — produce identical artifacts: `main` loads the
libraries snapshot and never reads it afterwards. -/
theorem c10_libraries_noninterference (fs1 fs2 : SnapFS)
    (hsame : ∀ n, n ≠ "libraries.json" → fs1 n = fs2 n)
    (h1 : (fs1 "libraries.json").isSome) (h2 : (fs2 "libraries.json").isSome) :
    runDenormalizer fs1 = runDenormalizer fs2 := by
  have hc : fs1 "companies.json" = fs2 "companies.json" := hsame _ (by decide)
  have ht : fs1 "tools.json" = fs2 "tools.json" := hsame _ (by decide)
  rcases hl1 : fs1 "libraries.json" with _ | l1
  · rw [hl1] at h1
    simp at h1
  rcases hl2 : fs2 "libraries.json" with _ | l2
  · rw [hl2] at h2
    simp at h2
  unfold runDenormalizer load_snapshots
  rw [hc, ht, hl1, hl2]
  cases fs2 "companies.json" <;> cases fs2 "tools.json" <;> rfl

/-- C10 witness: two directories sharing empty companies and tools
snapshots but carrying different libraries snapshots (one row versus
none) yield the same run result. -/
theorem c10_libraries_noninterference_witness :
    runDenormalizer c10Fs1 = runDenormalizer c10Fs2 :=
  c10_libraries_noninterference c10Fs1 c10Fs2
    (fun n hn => by simp [c10Fs1, c10Fs2, hn])
    (by rfl) (by rfl)

/-! ## C7: reference resolution -/

/-- Every element a reference-resolution fold appends comes from a row
found in the index. -/
theorem resolveRefs_ok_mem {γ : Type} (by_id : List (JVal × Row))
    (enrich : Row → Except String γ) :
    ∀ (refs : List JVal) (acc out : List γ),
      refs.foldlM (resolveRefsStep by_id enrich) acc = Except.ok out →
      ∀ e ∈ out, e ∈ acc ∨ ∃ rid row, pyDictGet by_id rid = some row ∧
        enrich row = Except.ok e := by
  intro refs
  induction refs with
  | nil =>
    intro acc out h e he
    rw [List.foldlM_nil] at h
    rw [← epure_ok.mp h] at he
    exact Or.inl he
  | cons r rest ih =>
    intro acc out h e he
    rw [List.foldlM_cons] at h
    rcases ebind_ok.mp h with ⟨acc2, hstep, hrest⟩
    rcases ih acc2 out hrest e he with hin | hex
    · unfold resolveRefsStep at hstep
      cases r with
      | obj d =>
        rcases ebind_ok.mp hstep with ⟨rid, hrid, h2⟩
        split at h2
        · rename_i row hlook
          by_cases hrow : row = []
          · rw [if_pos hrow] at h2
            rw [← epure_ok.mp h2] at hin
            exact Or.inl hin
          · rw [if_neg hrow] at h2
            rcases ebind_ok.mp h2 with ⟨e2, he2, hp⟩
            rw [← epure_ok.mp hp] at hin
            rcases List.mem_append.mp hin with hin2 | hin3
            · exact Or.inl hin2
            · rw [List.mem_singleton.mp hin3]
              exact Or.inr ⟨rid, row, hlook, he2⟩
        · rw [← epure_ok.mp h2] at hin
          exact Or.inl hin
      | s v => simp at hstep
      | n v => simp at hstep
      | null => simp at hstep
      | arr l => simp at hstep
    · exact Or.inr hex

/-- Destructuring a successful `processCompany`: the stored count is the
length of the embedded list, and every embedded tool is the enrichment
of a row found in the index. -/
theorem processCompany_ok (by_id : List (JVal × Row)) (c : Row) (wc : WebCompany)
    (h : processCompany by_id c = Except.ok wc) :
    wc.tool_count = wc.tools.length ∧
    ∀ e ∈ wc.tools, ∃ rid row, pyDictGet by_id rid = some row ∧
      enrichToolForCompany row = Except.ok e := by
  unfold processCompany at h
  rcases ebind_ok.mp h with ⟨refs, hrefs, h2⟩
  rcases ebind_ok.mp h2 with ⟨ct, hct, h3⟩
  rcases ebind_ok.mp h3 with ⟨uuid, huuid, h4⟩
  rcases ebind_ok.mp h4 with ⟨name, hname, h5⟩
  rw [← epure_ok.mp h5]
  refine ⟨rfl, ?_⟩
  intro e he
  rcases resolveRefs_ok_mem by_id enrichToolForCompany refs [] ct hct e he with hin | hex
  · simp at hin
  · exact hex

/-- Destructuring a successful `processTool`: every embedded company is
the enrichment of a row found in the index. -/
theorem processTool_ok_companies (by_id : List (JVal × Row)) (t : Row) (wt : WebTool)
    (h : processTool by_id t = Except.ok wt) :
    ∀ e ∈ wt.companies, ∃ rid row, pyDictGet by_id rid = some row ∧
      enrichCompanyForTool row = Except.ok e := by
  unfold processTool at h
  rcases ebind_ok.mp h with ⟨refs, hrefs, h2⟩
  rcases ebind_ok.mp h2 with ⟨tc, htc, h3⟩
  rcases ebind_ok.mp h3 with ⟨tagObjs, htg, h4⟩
  rcases ebind_ok.mp h4 with ⟨tagAcc, hta, h5⟩
  rcases ebind_ok.mp h5 with ⟨uuid, hu, h6⟩
  rcases ebind_ok.mp h6 with ⟨name, hn, h7⟩
  rw [← epure_ok.mp h7]
  intro e he
  rcases resolveRefs_ok_mem by_id enrichCompanyForTool refs [] tc htc e he with hin | hex
  · simp at hin
  · exact hex

/-- A binding of the id index maps the id back to a row of the input
whose own `id` field is that id. -/
theorem rowsById_go_mem :
    ∀ (rows : List Row) (d idx : List (JVal × Row)),
      rows.foldlM rowsByIdStep d = Except.ok idx →
      ∀ k r, pyDictGet idx k = some r →
        pyDictGet d k = some r ∨ (r ∈ rows ∧ pySubscript r "id" = Except.ok k) := by
  intro rows
  induction rows with
  | nil =>
    intro d idx h k r hg
    rw [List.foldlM_nil] at h
    rw [← epure_ok.mp h] at hg
    exact Or.inl hg
  | cons row0 rest ih =>
    intro d idx h k r hg
    rw [List.foldlM_cons] at h
    rcases ebind_ok.mp h with ⟨d2, hstep, hrest⟩
    unfold rowsByIdStep at hstep
    rcases ebind_ok.mp hstep with ⟨k0, hk0, hp⟩
    have hd2 : d2 = pyDictInsert d k0 row0 := (epure_ok.mp hp).symm
    rcases ih d2 idx hrest k r hg with hin | hmem
    · rw [hd2, pyDictGet_insert] at hin
      by_cases hk : k0 = k
      · rw [if_pos hk] at hin
        injection hin with hh
        rw [← hh]
        exact Or.inr ⟨List.mem_cons_self row0 rest, hk ▸ hk0⟩
      · rw [if_neg hk] at hin
        exact Or.inl hin
    · exact Or.inr ⟨List.mem_cons_of_mem row0 hmem.1, hmem.2⟩

/-- A successful lookup in `rowsById rows` comes from a row of `rows`
with the matching internal id. -/
theorem rowsById_lookup (rows : List Row) (idx : List (JVal × Row))
    (h : rowsById rows = Except.ok idx) (k : JVal) (r : Row)
    (hg : pyDictGet idx k = some r) :
    r ∈ rows ∧ pySubscript r "id" = Except.ok k := by
  rcases rowsById_go_mem rows [] idx h k r hg with hin | hmem
  · simp [pyDictGet] at hin
  · exact hmem

/-- C7: every embedded tool-in-company (and company-in-tool) entry of
the Denormalizer's output is the enrichment of a row of the opposite raw
snapshot whose internal id matches the id the reference was resolved
with; the stored count equals the number of embedded entries, so
references whose id is absent from the opposite snapshot contribute no
entry and are excluded from the count — and resolution itself raises no
error on them (the witness runs the pipeline over a dangling
reference). -/
theorem c7_reference_resolution (companies tools : List Row)
    (idxT idxC : List (JVal × Row)) (wcs : List WebCompany) (wts : List WebTool)
    (hT : rowsById tools = Except.ok idxT)
    (hC : rowsById companies = Except.ok idxC)
    (hwc : create_web_companies companies idxT = Except.ok wcs)
    (hwt : create_web_tools tools idxC = Except.ok wts) :
    (∀ wc ∈ wcs, wc.tool_count = wc.tools.length ∧
      ∀ e ∈ wc.tools, ∃ rid row, row ∈ tools ∧ pySubscript row "id" = Except.ok rid ∧
        pyDictGet idxT rid = some row ∧ enrichToolForCompany row = Except.ok e) ∧
    (∀ wt ∈ wts, ∀ e ∈ wt.companies, ∃ rid row, row ∈ companies ∧
      pySubscript row "id" = Except.ok rid ∧
      pyDictGet idxC rid = some row ∧ enrichCompanyForTool row = Except.ok e) := by
  constructor
  · intro wc hwcmem
    rcases mapM_ok_mem _ hwc wc hwcmem with ⟨c, hcmem, hpc⟩
    obtain ⟨hcount, hres⟩ := processCompany_ok idxT c wc hpc
    refine ⟨hcount, ?_⟩
    intro e he
    rcases hres e he with ⟨rid, row, hlook, hen⟩
    obtain ⟨hrmem, hid⟩ := rowsById_lookup tools idxT hT rid row hlook
    exact ⟨rid, row, hrmem, hid, hlook, hen⟩
  · intro wt hwtmem e he
    rcases mapM_ok_mem _ hwt wt hwtmem with ⟨t, htmem, hpt⟩
    rcases processTool_ok_companies idxC t wt hpt e he with ⟨rid, row, hlook, hen⟩
    obtain ⟨hrmem, hid⟩ := rowsById_lookup companies idxC hC rid row hlook
    exact ⟨rid, row, hrmem, hid, hlook, hen⟩

/-- C7 witness: a company referencing the nonexistent tool id 99 against
an empty tool snapshot enriches without error into an empty embedded
list with a count of 0. -/
theorem c7_reference_resolution_witness :
    c7DanglingWc.tool_count = c7DanglingWc.tools.length :=
  ((c7_reference_resolution [c7DanglingCompany] [] []
      [(JVal.n 1, c7DanglingCompany)] [c7DanglingWc] []
      (by rfl) (by rfl) (by rfl) (by rfl)).1 c7DanglingWc
      (List.mem_singleton.mpr rfl)).1

/-! ## C1: which missing fields are tolerated -/

/-- Iterating a wellformed optional reference-list field: a missing
field defaults to the empty list. -/
theorem refList_iter (c : Row) (field : String)
    (h : refListOK (pyDictGet c field)) :
    ∃ refs, pyIterList (pyDictGetD c field (JVal.arr [])) = Except.ok refs ∧
      ∀ r ∈ refs, ∃ d, r = JVal.obj d ∧ (pyDictGet d "id").isSome := by
  unfold refListOK at h
  rcases hv : pyDictGet c field with _ | v
  · refine ⟨[], ?_, ?_⟩
    · unfold pyDictGetD
      rw [hv]
      rfl
    · intro r hr
      exact absurd hr (List.not_mem_nil r)
  · rw [hv] at h
    cases v with
    | arr xs =>
      refine ⟨xs, ?_, ?_⟩
      · unfold pyDictGetD
        rw [hv]
        rfl
      · exact fun r hr => h r hr
    | s str => exact False.elim h
    | n i => exact False.elim h
    | null => exact False.elim h
    | obj d => exact False.elim h

/-- Iterating a wellformed optional tag-list field: a missing field
defaults to the empty list. -/
theorem tagList_iter (c : Row)
    (h : tagListOK (pyDictGet c "Tool Tags")) :
    ∃ tags, pyIterList (pyDictGetD c "Tool Tags" (JVal.arr [])) = Except.ok tags ∧
      ∀ t ∈ tags, ∃ d, t = JVal.obj d ∧ (pyDictGet d "value").isSome := by
  unfold tagListOK at h
  rcases hv : pyDictGet c "Tool Tags" with _ | v
  · refine ⟨[], ?_, ?_⟩
    · unfold pyDictGetD
      rw [hv]
      rfl
    · intro t ht
      exact absurd ht (List.not_mem_nil t)
  · rw [hv] at h
    cases v with
    | arr xs =>
      refine ⟨xs, ?_, ?_⟩
      · unfold pyDictGetD
        rw [hv]
        rfl
      · exact fun t ht => h t ht
    | s str => exact False.elim h
    | n i => exact False.elim h
    | null => exact False.elim h
    | obj d => exact False.elim h

/-- A tool row carrying its mandatory fields enriches into an embedded
tool; every optional field is defaulted. -/
theorem enrichToolForCompany_ok (r : Row) (hr : toolRowOK r) :
    ∃ e, enrichToolForCompany r = Except.ok e := by
  obtain ⟨hu, hn, htags⟩ := hr
  rcases Option.isSome_iff_exists.mp hu with ⟨u, hu2⟩
  rcases Option.isSome_iff_exists.mp hn with ⟨nm, hn2⟩
  rcases tagList_iter r htags with ⟨tagObjs, hto, hwf⟩
  have hmap : ∃ tags, tagObjs.mapM (fun t => match t with
      | JVal.obj d => pySubscript d "value"
      | _ => Except.error "TypeError: tag is not a dict") = Except.ok tags := by
    apply mapM_ok_of_all
    intro t ht
    rcases hwf t ht with ⟨d, rfl, hval⟩
    rcases Option.isSome_iff_exists.mp hval with ⟨v, hv2⟩
    refine ⟨v, ?_⟩
    show pySubscript d "value" = Except.ok v
    unfold pySubscript
    rw [hv2]
  rcases hmap with ⟨tags, htagsok⟩
  unfold enrichToolForCompany
  refine ebind_ok_ex ⟨u, by unfold pySubscript; rw [hu2], ?_⟩
  refine ebind_ok_ex ⟨nm, by unfold pySubscript; rw [hn2], ?_⟩
  refine ebind_ok_ex ⟨tagObjs, hto, ?_⟩
  refine ebind_ok_ex ⟨tags, htagsok, ?_⟩
  exact ⟨_, epure_ok.mpr rfl⟩

/-- A company row carrying `UUID` and `Company Name` enriches into an
embedded company. -/
theorem enrichCompanyForTool_ok (r : Row) (hr : companyRowMin r) :
    ∃ e, enrichCompanyForTool r = Except.ok e := by
  rcases Option.isSome_iff_exists.mp hr.1 with ⟨u, hu2⟩
  rcases Option.isSome_iff_exists.mp hr.2 with ⟨nm, hn2⟩
  unfold enrichCompanyForTool
  refine ebind_ok_ex ⟨u, by unfold pySubscript; rw [hu2], ?_⟩
  refine ebind_ok_ex ⟨nm, by unfold pySubscript; rw [hn2], ?_⟩
  exact ⟨_, epure_ok.mpr rfl⟩

/-- A reference-resolution fold over wellformed references succeeds when
every indexed row enriches. -/
theorem resolveRefs_ok_total {γ : Type} (by_id : List (JVal × Row))
    (enrich : Row → Except String γ)
    (hidx : ∀ k r, pyDictGet by_id k = some r → ∃ e, enrich r = Except.ok e) :
    ∀ (refs : List JVal),
      (∀ ref ∈ refs, ∃ d, ref = JVal.obj d ∧ (pyDictGet d "id").isSome) →
      ∀ acc, ∃ out, refs.foldlM (resolveRefsStep by_id enrich) acc = Except.ok out := by
  intro refs
  induction refs with
  | nil =>
    intro _ acc
    refine ⟨acc, ?_⟩
    rw [List.foldlM_nil]
    exact epure_ok.mpr rfl
  | cons ref rest ih =>
    intro hwf acc
    rcases hwf ref (List.mem_cons_self ref rest) with ⟨d, rfl, hid⟩
    rcases Option.isSome_iff_exists.mp hid with ⟨rid, hrid⟩
    have hsub : pySubscript d "id" = Except.ok rid := by
      unfold pySubscript
      rw [hrid]
    have hstep : ∃ acc2, resolveRefsStep by_id enrich acc (JVal.obj d) = Except.ok acc2 := by
      unfold resolveRefsStep
      rcases hlook : pyDictGet by_id rid with _ | row
      · refine ⟨acc, ebind_ok.mpr ⟨rid, hsub, ?_⟩⟩
        simp only [hlook]
        exact epure_ok.mpr rfl
      · by_cases hrow : row = []
        · refine ⟨acc, ebind_ok.mpr ⟨rid, hsub, ?_⟩⟩
          simp only [hlook]
          rw [if_pos hrow]
          exact epure_ok.mpr rfl
        · rcases hidx rid row hlook with ⟨e, he⟩
          refine ⟨acc ++ [e], ebind_ok.mpr ⟨rid, hsub, ?_⟩⟩
          simp only [hlook]
          rw [if_neg hrow]
          exact ebind_ok.mpr ⟨e, he, epure_ok.mpr rfl⟩
    rcases hstep with ⟨acc2, hacc2⟩
    rcases ih (fun x hx => hwf x (List.mem_cons_of_mem _ hx)) acc2 with ⟨out, hout⟩
    refine ⟨out, ?_⟩
    rw [List.foldlM_cons]
    exact ebind_ok.mpr ⟨acc2, hacc2, hout⟩

/-- The tag-collection fold over wellformed tag dicts always succeeds. -/
theorem collectTags_total :
    ∀ (tagObjs : List JVal),
      (∀ t ∈ tagObjs, ∃ d, t = JVal.obj d ∧ (pyDictGet d "value").isSome) →
      ∀ p, ∃ q, tagObjs.foldlM collectTagStep p = Except.ok q := by
  intro tagObjs
  induction tagObjs with
  | nil =>
    intro _ p
    refine ⟨p, ?_⟩
    rw [List.foldlM_nil]
    exact epure_ok.mpr rfl
  | cons tg rest ih =>
    intro hwf p
    rcases hwf tg (List.mem_cons_self tg rest) with ⟨d, rfl, hval⟩
    rcases Option.isSome_iff_exists.mp hval with ⟨v, hv2⟩
    have hstep : ∃ p2, collectTagStep p (JVal.obj d) = Except.ok p2 := by
      unfold collectTagStep
      refine ⟨_, ebind_ok.mpr ⟨v, ?_, epure_ok.mpr rfl⟩⟩
      unfold pySubscript
      rw [hv2]
    rcases hstep with ⟨p2, hp2⟩
    rcases ih (fun x hx => hwf x (List.mem_cons_of_mem _ hx)) p2 with ⟨q, hq⟩
    refine ⟨q, ?_⟩
    rw [List.foldlM_cons]
    exact ebind_ok.mpr ⟨p2, hp2, hq⟩

/-- A company row with the mandatory fields processes successfully
against an index of mandatory-field tool rows. -/
theorem processCompany_total (by_id : List (JVal × Row)) (c : Row)
    (hc : companyRowOK c)
    (hidx : ∀ k r, pyDictGet by_id k = some r → toolRowOK r) :
    ∃ wc, processCompany by_id c = Except.ok wc := by
  obtain ⟨hu, hn, hrefs⟩ := hc
  rcases refList_iter c "Tools" hrefs with ⟨refs, hto, hwfrefs⟩
  have henr : ∀ k r, pyDictGet by_id k = some r →
      ∃ e, enrichToolForCompany r = Except.ok e :=
    fun k r hk => enrichToolForCompany_ok r (hidx k r hk)
  rcases resolveRefs_ok_total by_id _ henr refs hwfrefs [] with ⟨ct, hct⟩
  rcases Option.isSome_iff_exists.mp hu with ⟨u, hu2⟩
  rcases Option.isSome_iff_exists.mp hn with ⟨nm, hn2⟩
  unfold processCompany
  refine ebind_ok_ex ⟨refs, hto, ?_⟩
  refine ebind_ok_ex ⟨ct, hct, ?_⟩
  refine ebind_ok_ex ⟨u, by unfold pySubscript; rw [hu2], ?_⟩
  refine ebind_ok_ex ⟨nm, by unfold pySubscript; rw [hn2], ?_⟩
  exact ⟨_, epure_ok.mpr rfl⟩

/-- A tool row with the mandatory fields processes successfully against
an index of mandatory-field company rows. -/
theorem processTool_total (by_id : List (JVal × Row)) (t : Row)
    (ht : toolRowOK t) (hrefs : refListOK (pyDictGet t "ToolCompany"))
    (hidx : ∀ k r, pyDictGet by_id k = some r → companyRowMin r) :
    ∃ wt, processTool by_id t = Except.ok wt := by
  obtain ⟨hu, hn, htags⟩ := ht
  rcases refList_iter t "ToolCompany" hrefs with ⟨refs, hto, hwfrefs⟩
  have henr : ∀ k r, pyDictGet by_id k = some r →
      ∃ e, enrichCompanyForTool r = Except.ok e :=
    fun k r hk => enrichCompanyForTool_ok r (hidx k r hk)
  rcases resolveRefs_ok_total by_id _ henr refs hwfrefs [] with ⟨tc, htc⟩
  rcases tagList_iter t htags with ⟨tagObjs, htgo, hwftags⟩
  rcases collectTags_total tagObjs hwftags ([], []) with ⟨tagAcc, hta⟩
  rcases Option.isSome_iff_exists.mp hu with ⟨u, hu2⟩
  rcases Option.isSome_iff_exists.mp hn with ⟨nm, hn2⟩
  unfold processTool
  refine ebind_ok_ex ⟨refs, hto, ?_⟩
  refine ebind_ok_ex ⟨tc, htc, ?_⟩
  refine ebind_ok_ex ⟨tagObjs, htgo, ?_⟩
  refine ebind_ok_ex ⟨tagAcc, hta, ?_⟩
  refine ebind_ok_ex ⟨u, by unfold pySubscript; rw [hu2], ?_⟩
  refine ebind_ok_ex ⟨nm, by unfold pySubscript; rw [hn2], ?_⟩
  exact ⟨_, epure_ok.mpr rfl⟩

/-- C1 (amended): a row missing an optional field — URL, notes,
descriptions, rating, cost, last-modified, the tag list, the reference
list, or a tag's color — is tolerated via default/empty substitution and
the run enriches it successfully; but a row missing its UUID or name
field, a tag record missing its `value`, or a reference record missing
its `id` raises a KeyError that is fatal to the run (third conjunct: a
concrete company row without `UUID`). -/
theorem c1_field_tolerance :
    (∀ (companies : List Row) (by_id : List (JVal × Row)),
      (∀ c ∈ companies, companyRowOK c) →
      (∀ k r, pyDictGet by_id k = some r → toolRowOK r) →
      ∃ out, create_web_companies companies by_id = Except.ok out) ∧
    (∀ (tools : List Row) (by_id : List (JVal × Row)),
      (∀ t ∈ tools, toolRowOK t ∧ refListOK (pyDictGet t "ToolCompany")) →
      (∀ k r, pyDictGet by_id k = some r → companyRowMin r) →
      ∃ out, create_web_tools tools by_id = Except.ok out) ∧
    create_web_companies [c1NoUuidRow] [] = Except.error "KeyError: UUID" := by
  refine ⟨?_, ?_, by rfl⟩
  · intro companies by_id hrows hidx
    exact mapM_ok_of_all _ companies
      (fun c hc => processCompany_total by_id c (hrows c hc) hidx)
  · intro tools by_id hrows hidx
    exact mapM_ok_of_all _ tools
      (fun t ht => processTool_total by_id t (hrows t ht).1 (hrows t ht).2 hidx)

/-- C1 witness: rows carrying only the mandatory fields — every optional
field absent — enrich successfully on both sides. -/
theorem c1_field_tolerance_witness :
    (∃ out, create_web_companies [c1MinCompany] [] = Except.ok out) ∧
    (∃ out, create_web_tools [c1MinTool] [] = Except.ok out) := by
  constructor
  · refine c1_field_tolerance.1 [c1MinCompany] [] ?_ ?_
    · intro c hc
      rw [List.mem_singleton.mp hc]
      exact ⟨rfl, rfl, trivial⟩
    · intro k r h
      simp [pyDictGet] at h
  · refine (c1_field_tolerance.2.1) [c1MinTool] [] ?_ ?_
    · intro t ht
      rw [List.mem_singleton.mp ht]
      exact ⟨⟨rfl, rfl, trivial⟩, trivial⟩
    · intro k r h
      simp [pyDictGet] at h

/-! ## C3: tag catalog lemmas -/

/-- Inserting a key that is absent appends the binding. -/
theorem pyDictInsert_absent {α β : Type} [DecidableEq α] :
    ∀ (d : List (α × β)) (k : α) (v : β), pyDictGet d k = none →
      pyDictInsert d k v = d ++ [(k, v)] := by
  intro d
  induction d with
  | nil => intro k v _; rfl
  | cons p rest ih =>
    intro k v h
    by_cases hp : p.1 = k
    · rw [pyDictGet] at h
      rw [if_pos hp] at h
      exact absurd h (by simp)
    · rw [pyDictGet] at h
      rw [if_neg hp] at h
      unfold pyDictInsert
      rw [if_neg hp, ih k v h]
      rfl

/-- The head of a `filterMap` over a cons. -/
theorem head?_filterMap_cons {α β : Type} (f : α → Option β) (x : α) (xs : List α) :
    ((x :: xs).filterMap f).head? = (f x <|> (xs.filterMap f).head?) := by
  rw [List.filterMap_cons]
  cases f x <;> simp

/-- Looking up a name after one tool's `tags_dict` accumulation: the
existing dict wins, else the tool's `tag_colors` first binding. -/
theorem addTagColors_lookup (k : JVal) :
    ∀ (tc d : List (JVal × JVal)),
      pyDictGet (addTagColors d tc) k = (pyDictGet d k <|> pyDictGet tc k) := by
  intro tc
  induction tc with
  | nil =>
    intro d
    simp [addTagColors, pyDictGet]
  | cons p rest ih =>
    intro d
    unfold addTagColors
    rw [List.foldl_cons]
    have hstep := ih (if (pyDictGet d p.1).isSome then d else pyDictInsert d p.1 p.2)
    unfold addTagColors at hstep
    rw [hstep]
    by_cases hd : (pyDictGet d p.1).isSome
    · rw [if_pos hd]
      by_cases hpk : p.1 = k
      · rcases Option.isSome_iff_exists.mp (hpk ▸ hd) with ⟨w, hw⟩
        simp [pyDictGet, hpk, hw]
      · simp [pyDictGet, hpk]
    · rw [if_neg hd]
      have hdnone : pyDictGet d p.1 = none := Option.not_isSome_iff_eq_none.mp hd
      rw [pyDictGet_insert]
      by_cases hpk : p.1 = k
      · rw [if_pos hpk, ← hpk, hdnone]
        simp [pyDictGet, hpk]
      · rw [if_neg hpk]
        simp [pyDictGet, hpk]

/-- Looking up a name in the accumulated `tags_dict` over a list of
enriched tools: the first tool (in input order) whose `tag_colors` dict
carries the name wins. -/
theorem tagsDict_lookup (n : JVal) :
    ∀ (wts : List WebTool) (d : List (JVal × JVal)),
      pyDictGet (wts.foldl (fun d t => addTagColors d t.tag_colors) d) n =
        (pyDictGet d n <|> (wts.filterMap (fun t => pyDictGet t.tag_colors n)).head?) := by
  intro wts
  induction wts with
  | nil =>
    intro d
    simp
  | cons t rest ih =>
    intro d
    rw [List.foldl_cons, ih (addTagColors d t.tag_colors), addTagColors_lookup,
      head?_filterMap_cons, optOrElse_assoc]

/-- The `tags_dict` accumulation preserves uniqueness of keys. -/
theorem addTagColors_nodup :
    ∀ (tc d : List (JVal × JVal)), ((d.map Prod.fst).Nodup) →
      (((addTagColors d tc).map Prod.fst).Nodup) := by
  intro tc
  induction tc with
  | nil => intro d hd; exact hd
  | cons p rest ih =>
    intro d hd
    unfold addTagColors
    rw [List.foldl_cons]
    have hstep := ih (if (pyDictGet d p.1).isSome then d else pyDictInsert d p.1 p.2)
    unfold addTagColors at hstep
    apply hstep
    by_cases hg : (pyDictGet d p.1).isSome
    · rw [if_pos hg]
      exact hd
    · rw [if_neg hg]
      have hdnone : pyDictGet d p.1 = none := Option.not_isSome_iff_eq_none.mp hg
      rw [pyDictInsert_absent d p.1 p.2 hdnone, List.map_append]
      simp only [List.map_cons, List.map_nil]
      rw [List.nodup_append]
      refine ⟨hd, List.nodup_singleton _, ?_⟩
      intro a ha hb
      rw [List.mem_singleton.mp hb] at ha
      exact absurd ha ((pyDictGet_eq_none d p.1).mp hdnone)

/-- The keys of the full `tags_dict` are unique. -/
theorem tagsDict_nodup :
    ∀ (wts : List WebTool) (d : List (JVal × JVal)), ((d.map Prod.fst).Nodup) →
      (((wts.foldl (fun d t => addTagColors d t.tag_colors) d).map Prod.fst).Nodup) := by
  intro wts
  induction wts with
  | nil => intro d hd; exact hd
  | cons t rest ih =>
    intro d hd
    rw [List.foldl_cons]
    exact ih _ (addTagColors_nodup t.tag_colors d hd)

/-- The first-tool rule equals the head of the per-tool color list. -/
theorem amendedTagColor_eq_head (n : JVal) :
    ∀ (tools : List Row),
      (tools.filterMap (fun t => lastColoredOfPairs (tagPairsOf t) n)).head? =
        amendedTagColor tools n := by
  intro tools
  induction tools with
  | nil => rfl
  | cons t rest ih =>
    rw [head?_filterMap_cons]
    unfold amendedTagColor
    rw [ih]

/-- Looking a name up in the `tag_colors` dict built by the tag fold:
the last colored occurrence in the processed tag list wins, else the
initial accumulator. -/
theorem collectTags_colors :
    ∀ (tagObjs : List JVal) (p q : List JVal × List (JVal × JVal)),
      tagObjs.foldlM collectTagStep p = Except.ok q →
      ∀ n, pyDictGet q.2 n =
        (lastColoredOfPairs (pairsOfObjs tagObjs) n <|> pyDictGet p.2 n) := by
  intro tagObjs
  induction tagObjs with
  | nil =>
    intro p q h n
    rw [List.foldlM_nil] at h
    rw [← epure_ok.mp h]
    simp [pairsOfObjs, lastColoredOfPairs]
  | cons tg rest ih =>
    intro p q h n
    rw [List.foldlM_cons] at h
    rcases ebind_ok.mp h with ⟨p2, hstep, hrest⟩
    unfold collectTagStep at hstep
    cases tg with
    | obj d =>
      rcases ebind_ok.mp hstep with ⟨v, hv, hp⟩
      have hp2 : p2 = (p.1 ++ [v],
          match pyDictGet d "color" with
          | some c => pyDictInsert p.2 v c
          | none => p.2) := (epure_ok.mp hp).symm
      have hval : pyDictGet d "value" = some v := by
        unfold pySubscript at hv
        rcases hg : pyDictGet d "value" with _ | w
        · rw [hg] at hv
          exact absurd hv (by simp)
        · rw [hg] at hv
          injection hv with hh
          rw [hh]
      have hpairs : pairsOfObjs (JVal.obj d :: rest) =
          (v, pyDictGet d "color") :: pairsOfObjs rest := by
        unfold pairsOfObjs
        rw [List.filterMap_cons]
        simp [hval]
      rw [ih p2 q hrest n, hpairs]
      simp only [lastColoredOfPairs]
      rw [optOrElse_assoc]
      have hsnd : pyDictGet p2.2 n =
          ((if v = n then pyDictGet d "color" else none) <|> pyDictGet p.2 n) := by
        rw [hp2]
        rcases hc : pyDictGet d "color" with _ | c
        · simp only [hc]
          simp
        · simp only [hc]
          rw [pyDictGet_insert]
          by_cases hvn : v = n
          · rw [if_pos hvn, if_pos hvn]
            simp
          · rw [if_neg hvn, if_neg hvn]
            simp
      rw [hsnd]
    | s v => simp at hstep
    | n v => simp at hstep
    | null => simp at hstep
    | arr l => simp at hstep

/-- The `tag_colors` dict of an enriched tool realizes the
last-colored-occurrence rule over the raw tag list. -/
theorem processTool_tag_colors (by_id : List (JVal × Row)) (t : Row) (wt : WebTool)
    (h : processTool by_id t = Except.ok wt) (n : JVal) :
    pyDictGet wt.tag_colors n = lastColoredOfPairs (tagPairsOf t) n := by
  unfold processTool at h
  rcases ebind_ok.mp h with ⟨refs, hrefs, h2⟩
  rcases ebind_ok.mp h2 with ⟨tc, htc, h3⟩
  rcases ebind_ok.mp h3 with ⟨tagObjs, htg, h4⟩
  rcases ebind_ok.mp h4 with ⟨tagAcc, hta, h5⟩
  rcases ebind_ok.mp h5 with ⟨uuid, hu, h6⟩
  rcases ebind_ok.mp h6 with ⟨name, hn, h7⟩
  rw [← epure_ok.mp h7]
  have hchar := collectTags_colors tagObjs ([], []) tagAcc hta n
  have hpair : tagPairsOf t = pairsOfObjs tagObjs := by
    unfold tagPairsOf
    unfold pyDictGetD at htg
    rcases hv : pyDictGet t "Tool Tags" with _ | v
    · rw [hv] at htg
      have h' : Except.ok ([] : List JVal) = Except.ok tagObjs := htg
      injection h' with hh
      rw [← hh]
      rfl
    · rw [hv] at htg
      cases v with
      | arr xs =>
        have h' : Except.ok xs = Except.ok tagObjs := htg
        injection h' with hh
        rw [← hh]
      | s str => exact absurd htg (by simp [pyIterList])
      | n i => exact absurd htg (by simp [pyIterList])
      | null => exact absurd htg (by simp [pyIterList])
      | obj dd => exact absurd htg (by simp [pyIterList])
  show pyDictGet tagAcc.2 n = lastColoredOfPairs (tagPairsOf t) n
  rw [hchar, hpair]
  simp [pyDictGet]

/-- A successful `sorted(d.items())`: the output is a permutation of the
dict items, pairwise sorted by their (string) keys. -/
theorem pySortedItems_ok (d sorted : List (JVal × JVal))
    (h : pySortedItems d = Except.ok sorted) :
    sorted.Perm d ∧
    List.Pairwise (fun p q : JVal × JVal =>
      ∃ sp sq, p.1 = JVal.s sp ∧ q.1 = JVal.s sq ∧ sp ≤ sq) sorted := by
  unfold pySortedItems at h
  rcases ebind_ok.mp h with ⟨keyed, hkeyed, h2⟩
  have hsorted : sorted =
      (List.insertionSort (fun a b => a.1 ≤ b.1) keyed).map (fun q => q.2) :=
    (epure_ok.mp h2).symm
  have hmap2 : keyed.map (fun q => q.2) = d := by
    have hh := mapM_ok_map (fun p : JVal × JVal => match p.1 with
        | JVal.s s => Except.ok (s, p)
        | _ => Except.error "TypeError: unorderable keys")
      (fun q => q.2) id ?_ hkeyed
    · simpa using hh
    · intro p q hpq
      cases hp1 : p.1 with
      | s str =>
        simp only [hp1] at hpq
        injection hpq with hhh
        subst hhh
        rfl
      | n i => simp [hp1] at hpq
      | null => simp [hp1] at hpq
      | arr l => simp [hp1] at hpq
      | obj o => simp [hp1] at hpq
  have hkeyprop : ∀ q ∈ keyed, q.2.1 = JVal.s q.1 := by
    intro q hq
    rcases mapM_ok_mem _ hkeyed q hq with ⟨p, hp, hf⟩
    cases hp1 : p.1 with
    | s str =>
      simp only [hp1] at hf
      injection hf with hhh
      subst hhh
      exact hp1
    | n i => simp [hp1] at hf
    | null => simp [hp1] at hf
    | arr l => simp [hp1] at hf
    | obj o => simp [hp1] at hf
  constructor
  · rw [hsorted, ← hmap2]
    exact (List.perm_insertionSort _ keyed).map _
  · rw [hsorted, List.pairwise_map]
    have hsort : List.Sorted (fun a b : String × (JVal × JVal) => a.1 ≤ b.1)
        (List.insertionSort (fun a b => a.1 ≤ b.1) keyed) := by
      haveI : IsTotal (String × (JVal × JVal)) (fun a b => a.1 ≤ b.1) :=
        ⟨fun a b => le_total a.1 b.1⟩
      haveI : IsTrans (String × (JVal × JVal)) (fun a b => a.1 ≤ b.1) :=
        ⟨fun a b c hab hbc => le_trans hab hbc⟩
      exact List.sorted_insertionSort _ keyed
    have hmemprop : ∀ q ∈ List.insertionSort
        (fun a b : String × (JVal × JVal) => a.1 ≤ b.1) keyed, q.2.1 = JVal.s q.1 :=
      fun q hq => hkeyprop q ((List.perm_insertionSort _ keyed).mem_iff.mp hq)
    exact List.Pairwise.imp_of_mem
      (fun {a b} ha hb hab => ⟨a.1, b.1, hmemprop a ha, hmemprop b hb, hab⟩) hsort

/-- C3 (amended): the tag catalog contains each tag name exactly once,
sorted alphabetically; but the color paired with a name is not that of
its first occurrence — within one tool the last colored occurrence of a
duplicated name wins (dict assignment overwrites), and only across tools
does the first tool carrying the name win. -/
theorem c3_tag_catalog_amended (tools : List Row) (by_id : List (JVal × Row))
    (wts : List WebTool) (catalog : List TagEntry)
    (hwt : create_web_tools tools by_id = Except.ok wts)
    (hcat : extract_all_tags wts = Except.ok catalog) :
    (catalog.map TagEntry.name).Nodup ∧
    List.Pairwise (fun a b : TagEntry =>
      ∃ sa sb, a.name = JVal.s sa ∧ b.name = JVal.s sb ∧ sa ≤ sb) catalog ∧
    (∀ n c, TagEntry.mk n c ∈ catalog ↔ amendedTagColor tools n = some c) := by
  unfold extract_all_tags at hcat
  rcases ebind_ok.mp hcat with ⟨sortedPairs, hsorted, h2⟩
  have hcatalog : catalog = sortedPairs.map (fun p => TagEntry.mk p.1 p.2) :=
    (epure_ok.mp h2).symm
  obtain ⟨hperm, hpw⟩ := pySortedItems_ok _ _ hsorted
  have hnodupkeys :
      (((wts.foldl (fun d t => addTagColors d t.tag_colors) []).map Prod.fst).Nodup) :=
    tagsDict_nodup wts [] (by simp)
  have hlookup : ∀ n, pyDictGet (wts.foldl (fun d t => addTagColors d t.tag_colors) []) n =
      (wts.filterMap (fun t => pyDictGet t.tag_colors n)).head? := by
    intro n
    have hh := tagsDict_lookup n wts []
    simpa [pyDictGet] using hh
  have hfil : ∀ n, wts.filterMap (fun t => pyDictGet t.tag_colors n) =
      tools.filterMap (fun t => lastColoredOfPairs (tagPairsOf t) n) := by
    intro n
    unfold create_web_tools at hwt
    exact mapM_ok_filterMap _ _ _
      (fun t wt hok => processTool_tag_colors by_id t wt hok n) hwt
  refine ⟨?_, ?_, ?_⟩
  · rw [hcatalog]
    have hmm : (sortedPairs.map (fun p => TagEntry.mk p.1 p.2)).map TagEntry.name =
        sortedPairs.map Prod.fst := by
      rw [List.map_map]
      rfl
    rw [hmm]
    exact ((hperm.map Prod.fst).nodup_iff).mpr hnodupkeys
  · rw [hcatalog, List.pairwise_map]
    exact hpw
  · intro n c
    have hmem1 : (TagEntry.mk n c ∈ catalog) ↔ (n, c) ∈ sortedPairs := by
      rw [hcatalog]
      constructor
      · intro hm
        rcases List.mem_map.mp hm with ⟨p, hp, heq⟩
        injection heq with h1 h2
        rw [← h1, ← h2]
        exact hp
      · intro hm
        exact List.mem_map.mpr ⟨(n, c), hm, rfl⟩
    rw [hmem1, hperm.mem_iff, mem_iff_pyDictGet hnodupkeys, hlookup, hfil,
      amendedTagColor_eq_head]

/-- C3 counterexample: one tool whose tag list carries "ml" twice, blue
then red. The catalog pairs "ml" with red — the color of the last
occurrence within the tool — while the first occurrence across all tools
in input order is blue. -/
theorem c3_counterexample :
    create_web_tools [c3DupTool] [] = Except.ok [c3DupWebTool] ∧
    extract_all_tags [c3DupWebTool] =
      Except.ok [TagEntry.mk (JVal.s "ml") (JVal.s "red")] ∧
    specFirstOccurrenceColor [c3DupTool] (JVal.s "ml") = some (JVal.s "blue") ∧
    JVal.s "red" ≠ JVal.s "blue" := by
  refine ⟨by rfl, by rfl, by rfl, by decide⟩

/-- C3 witness: on the duplicated-tag input the amended rule pairs "ml"
with red, as the catalog does. -/
theorem c3_tag_catalog_amended_witness :
    amendedTagColor [c3DupTool] (JVal.s "ml") = some (JVal.s "red") :=
  ((c3_tag_catalog_amended [c3DupTool] [] [c3DupWebTool]
      [TagEntry.mk (JVal.s "ml") (JVal.s "red")] (by rfl) (by rfl)).2.2
    (JVal.s "ml") (JVal.s "red")).mp (List.mem_singleton.mpr rfl)

/-- C1 counterexample: a company row missing its `UUID` field is not
tolerated — `company['UUID']` raises a KeyError and the run fails,
against the claim that a missing expected field is always substituted
with a default. -/
theorem c1_counterexample :
    create_web_companies [c1NoUuidRow] [] = Except.error "KeyError: UUID" := by
  rfl
